import Mathlib

/-!
Verification model of gophish_report.py, a script that reads a GoPhish CSV
export and produces an HTML campaign report.  The pipeline under study:

* a details-extraction loop decoding each row's embedded JSON payload into
  four derived columns (ip, user_agent, client_id, credentials);
* a memoized geolocation resolver lookup_ip with a module-level cache and an
  external HTTP collaborator;
* three view builders over the enriched rows: per-recipient timelines,
  campaign funnel statistics, and per-source-IP activity dossiers, plus a
  dynamically discovered credential field-name schema.

JSON values are modelled by an inductive JVal mirroring what Python's
json.loads can produce (None, bool, number, string, list, dict).  Python
operations that can raise (dict .get on a non-dict, subscripting, empty-list
indexing) are modelled in an Except monad so that the bare-except handler of
the source can be reproduced exactly, including which list appends had
already happened when the exception fired.  The external HTTP lookup and the
JSON text decoder are modelled as oracle functions supplied as parameters;
the rest is translated line by line from the source.
-/

namespace Gophish

/-- A decoded JSON value, as produced by Python's json.loads: None, bool,
number (modelled as an integer), string, list, or dict (association list of
string keys, keys distinct as json.loads output). -/
inductive JVal where
  | jnull
  | jbool (b : Bool)
  | jnum (n : Int)
  | jstr (s : String)
  | jarr (l : List JVal)
  | jobj (m : List (String × JVal))

/-- Generic association-list lookup on string keys (first match), modelling
Python dict lookup for dicts with distinct keys. -/
def alistGet {α : Type} : List (String × α) → String → Option α
  | [], _ => none
  | (k, v) :: t, key => if k = key then some v else alistGet t key

/-- Python truthiness of a decoded JSON value: None, False, 0, empty string,
empty list and empty dict are falsy. -/
def JVal.truthy : JVal → Bool
  | .jnull => false
  | .jbool b => b
  | .jnum n => n != 0
  | .jstr s => s != ""
  | .jarr l => !l.isEmpty
  | .jobj m => !m.isEmpty

/-- Python x.get(key, dflt): succeeds only when x is a dict, otherwise the
attribute access raises (AttributeError), modelled as error. -/
def jget (j : JVal) (key : String) (dflt : JVal) : Except Unit JVal :=
  match j with
  | .jobj m => .ok ((alistGet m key).getD dflt)
  | _ => .error ()

/-- Python subscript v[0]: first element of a non-empty list, first character
of a non-empty string; everything else raises (IndexError / KeyError /
TypeError), modelled as error. -/
def jfirst : JVal → Except Unit JVal
  | .jarr (x :: _) => .ok x
  | .jstr s =>
    match s.data with
    | c :: _ => .ok (.jstr (String.mk [c]))
    | [] => .error ()
  | _ => .error ()

/-- Python ASCII-ish whitespace test used by str.strip. -/
def isWS (c : Char) : Bool :=
  c == ' ' || c == '\t' || c == '\n' || c == '\r' || c == '\x0b' || c == '\x0c'

/-- details.strip() == "" : the string is empty or all whitespace. -/
def isBlank (s : String) : Bool := s.data.all isWS

/-- client_ids[0] if client_ids else None, where
client_ids = payload.get("client_id", []). -/
def cidStep (payload : JVal) : Except Unit JVal := do
  let cids ← jget payload "client_id" (.jarr [])
  if cids.truthy then jfirst cids else pure .jnull

/-- v[0] if isinstance(v, list) else v — the value flattening rule of the
submitted-credentials comprehension.  An empty list raises IndexError. -/
def flatVal (v : JVal) : Except Unit JVal :=
  match v with
  | .jarr l => jfirst (.jarr l)
  | _ => .ok v

/-- The list comprehension
[(k, v[0] if isinstance(v, list) else v) for k, v in payload.items()
 if k != "client_id"] — evaluated left to right, aborting on the first
raising element. -/
def extractPairs : List (String × JVal) → Except Unit (List (String × JVal))
  | [] => .ok []
  | (k, v) :: t =>
    if k = "client_id" then extractPairs t
    else do
      let w ← flatVal v
      let rest ← extractPairs t
      pure ((k, w) :: rest)

/-- The four derived columns being built up by the extraction loop
(ip_list, ua_list, client_id_list, submitted_creds).  Python None and JSON
null are both CPython None and are both modelled as jnull; the credentials
column distinguishes None (no submission) from a list of pairs. -/
structure Cols where
  ips : List JVal
  uas : List JVal
  cids : List JVal
  creds : List (Option (List (String × JVal)))

/-- Append one fully-extracted row to the four columns. -/
def pushRow (c : Cols) (ip ua cid : JVal) (cr : Option (List (String × JVal))) : Cols :=
  { ips := c.ips ++ [ip], uas := c.uas ++ [ua], cids := c.cids ++ [cid],
    creds := c.creds ++ [cr] }

/-- The all-None append used on the null/blank-details path and by the
bare-except handler when no extraction append had happened yet. -/
def pushNone (c : Cols) : Cols := pushRow c .jnull .jnull .jnull none

/-- One iteration of the details-extraction loop for one row, given the JSON
decoder as an oracle (parse s = none models json.loads raising).  The
branches reproduce the source order of operations: ip_list and ua_list are
appended inside the try block before the payload accesses, so an exception
raised after those appends makes the bare-except handler append a second
entry for this row to the already-extended lists. -/
def processDetails (parse : String → Option JVal) (event : String)
    (details : Option String) (c : Cols) : Cols :=
  match details with
  | none => pushNone c
  | some s =>
    if isBlank s then pushNone c
    else
      match parse s with
      | none => pushNone c
      | some j =>
        match jget j "browser" (.jobj []) with
        | .error _ => pushNone c
        | .ok browser =>
          match jget browser "address" .jnull with
          | .error _ => pushNone c
          | .ok ip =>
            match jget browser "user-agent" .jnull with
            | .error _ =>
              { ips := c.ips ++ [ip, .jnull], uas := c.uas ++ [.jnull],
                cids := c.cids ++ [.jnull], creds := c.creds ++ [none] }
            | .ok ua =>
              match jget j "payload" (.jobj []) with
              | .error _ =>
                { ips := c.ips ++ [ip, .jnull], uas := c.uas ++ [ua, .jnull],
                  cids := c.cids ++ [.jnull], creds := c.creds ++ [none] }
              | .ok payload =>
                match cidStep payload with
                | .error _ =>
                  { ips := c.ips ++ [ip, .jnull], uas := c.uas ++ [ua, .jnull],
                    cids := c.cids ++ [.jnull], creds := c.creds ++ [none] }
                | .ok cid =>
                  if event = "Submitted Data" then
                    match payload with
                    | .jobj pm =>
                      match extractPairs pm with
                      | .ok ex => pushRow c ip ua cid (some ex)
                      | .error _ =>
                        { ips := c.ips ++ [ip, .jnull], uas := c.uas ++ [ua, .jnull],
                          cids := c.cids ++ [cid, .jnull], creds := c.creds ++ [none] }
                    | _ =>
                      { ips := c.ips ++ [ip, .jnull], uas := c.uas ++ [ua, .jnull],
                        cids := c.cids ++ [cid, .jnull], creds := c.creds ++ [none] }
                  else pushRow c ip ua cid none

/-- The whole extraction loop over the raw rows, each row given by its event
kind and its details cell. -/
def extractAll (parse : String → Option JVal)
    (rows : List (String × Option String)) : Cols :=
  rows.foldl (fun c r => processDetails parse r.1 r.2 c) ⟨[], [], [], []⟩

/-! ### Geolocation resolver -/

/-- Boolean list-of-characters starts-with test. -/
def listStartsWith : List Char → List Char → Bool
  | [], _ => true
  | _ :: _, [] => false
  | a :: as, b :: bs => a == b && listStartsWith as bs

/-- Python s.startswith(p) for a single candidate p. -/
def strStartsWith (p s : String) : Bool := listStartsWith p.data s.data

/-- The fixed private/reserved address string prefixes of the source. -/
def PRIVATE_IP_PREFIXES : List String :=
  ["10.", "172.16.", "172.17.", "172.18.", "172.19.", "172.20.", "172.21.",
   "172.22.", "172.23.", "172.24.", "172.25.", "172.26.", "172.27.", "172.28.",
   "172.29.", "172.30.", "172.31.", "192.168.", "127.", "169.254.", "::1"]

/-- ip.startswith(PRIVATE_IP_PREFIXES): case-sensitive string-prefix test
against the fixed tuple, not CIDR arithmetic. -/
def isPrivateIp (s : String) : Bool :=
  PRIVATE_IP_PREFIXES.any (fun p => strStartsWith p s)

/-- A (location, organization) pair as stored in the geolocation cache. -/
abbrev Geo := String × String

/-- The module-level geo_cache: a map from address (None or a string, since
lookup_ip is keyed by the exact argument) to its Geo pair. -/
abbrev GeoCache := List (Option String × Geo)

/-- Lookup in the geolocation cache. -/
def cacheGet : GeoCache → Option String → Option Geo
  | [], _ => none
  | (k, g) :: t, key => if k = key then some g else cacheGet t key

/-- The external collaborator's successful JSON body, at its interface: the
optional city, region, country and org fields the source reads. -/
structure GeoResp where
  city : Option String
  region : Option String
  country : Option String
  org : Option String

/-- Compose the Geo pair from a 200 response: comma-join the truthy parts of
city/region/country, defaulting to "Unknown" when none, and take org
verbatim with default "". -/
def composeGeo (resp : GeoResp) : Geo :=
  let parts := ([resp.city, resp.region, resp.country].filterMap id).filter
    (fun s => s != "")
  (if parts.isEmpty then "Unknown" else String.intercalate ", " parts,
   resp.org.getD "")

/-- lookup_ip, with the external HTTP collaborator as an oracle
(ext s = some resp models a 200 response with that JSON body; ext s = none
models a non-200 status, transport failure or timeout).  Returns the Geo
result, the updated cache, and the list of external lookups issued by this
call (empty or a singleton). -/
def lookup_ip (ext : String → Option GeoResp) (cache : GeoCache)
    (ip : Option String) : Geo × GeoCache × List String :=
  match cacheGet cache ip with
  | some g => (g, cache, [])
  | none =>
    match ip with
    | none => (("N/A", "N/A"), (none, ("N/A", "N/A")) :: cache, [])
    | some s =>
      if s = "" then (("N/A", "N/A"), (some s, ("N/A", "N/A")) :: cache, [])
      else if isPrivateIp s then
        (("Private/Reserved", "Private/Reserved"),
         (some s, ("Private/Reserved", "Private/Reserved")) :: cache, [])
      else
        match ext s with
        | some resp => (composeGeo resp, (some s, composeGeo resp) :: cache, [s])
        | none =>
          (("Lookup Failed", "N/A"), (some s, ("Lookup Failed", "N/A")) :: cache, [s])

/-! ### Enriched rows and the three views

After the extraction loop and the bulk lookups of the unique addresses, the
remaining passes only ever hit the cache (proved for the resolver itself as
the memoization theorem), so downstream consumers are modelled against a
pure resolved map geo : String → Geo standing for the filled cache. -/

/-- One enriched dataframe row: recipient email (null when the CSV cell was
empty), timestamp rendered as an ISO string (null when unparseable), event
kind, and the three derived fields relevant downstream.  Addresses and user
agents that survive to the view-building passes are strings or None. -/
structure Row where
  email : Option String
  ts : Option String
  event : String
  ip : Option String
  ua : Option String
  credentials : Option (List (String × JVal))

/-- Python x or "N/A" for an optional string column value. -/
def orNA : Option String → String
  | some s => if s = "" then "N/A" else s
  | none => "N/A"

/-- Python truthiness of an optional string. -/
def optTruthy : Option String → Bool
  | some s => s != ""
  | none => false

/-- The fixed event-kind vocabulary of the user-view filter. -/
def VOCAB : List String :=
  ["Email Sent", "Email Opened", "Clicked Link", "Submitted Data"]

/-- One rendered event entry of a per-user (or per-IP) timeline. -/
structure UserEvent where
  event : String
  timestamp : String
  ip : String
  location : String
  isp : String
  ua : String

/-- Append an event to a user's timeline, creating the user on first sight
(defaultdict behaviour, insertion ordered). -/
def pushUserEvent (m : List (String × List UserEvent)) (k : String)
    (e : UserEvent) : List (String × List UserEvent) :=
  match alistGet m k with
  | some _ => m.map (fun p => if p.1 = k then (p.1, p.2 ++ [e]) else p)
  | none => m ++ [(k, [e])]

/-- One iteration of the user-data loop: skip blank emails and events outside
the vocabulary, resolve the Geo pair (the falsy-address guard yielding
N/A without consulting the resolver), and append the rendered event. -/
def userStep (geo : String → Geo) (m : List (String × List UserEvent))
    (r : Row) : List (String × List UserEvent) :=
  match r.email with
  | none => m
  | some email =>
    if isBlank email then m
    else if r.event ∈ VOCAB then
      let gi : Geo := match r.ip with
        | some ip => if ip = "" then ("N/A", "N/A") else geo ip
        | none => ("N/A", "N/A")
      pushUserEvent m email
        { event := r.event, timestamp := r.ts.getD "N/A", ip := orNA r.ip,
          location := gi.1, isp := gi.2, ua := orNA r.ua }
    else m

/-- The users map: the accumulation loop followed by the drop of users with
empty timelines. -/
def buildUsers (geo : String → Geo) (rows : List Row) :
    List (String × List UserEvent) :=
  (rows.foldl (userStep geo) []).filter (fun p => !p.2.isEmpty)

/-- The three per-recipient funnel buckets. -/
inductive Stage where
  | submitted
  | clicked
  | opened
deriving DecidableEq

/-- The funnel stage of one user, read off the if/elif/elif chain of the
statistics loop: Submitted Data wins, then Clicked Link, then Email Opened,
and a user with none of the three lands in no bucket. -/
def classifyUser (evs : List String) : Option Stage :=
  if "Submitted Data" ∈ evs then some .submitted
  else if "Clicked Link" ∈ evs then some .clicked
  else if "Email Opened" ∈ evs then some .opened
  else none

/-- The statistics loop over users.values() producing
(users_opened_only, users_opened_and_clicked, users_opened_clicked_submitted). -/
def stageCounts (users : List (String × List UserEvent)) : Nat × Nat × Nat :=
  users.foldl (fun acc p =>
    let ev := p.2.map (fun e => e.event)
    if "Submitted Data" ∈ ev then (acc.1, acc.2.1, acc.2.2 + 1)
    else if "Clicked Link" ∈ ev then (acc.1, acc.2.1 + 1, acc.2.2)
    else if "Email Opened" ∈ ev then (acc.1 + 1, acc.2.1, acc.2.2)
    else acc) (0, 0, 0)

/-! ### Campaign funnel counts -/

/-- len(df[df["event"] == "Email Sent"]). -/
def sent_count (rows : List Row) : Nat :=
  (rows.filter (fun r => decide (r.event = "Email Sent"))).length

/-- len(df[df["event"] == "Email Opened"]). -/
def open_count (rows : List Row) : Nat :=
  (rows.filter (fun r => decide (r.event = "Email Opened"))).length

/-- len(df[df["event"] == "Clicked Link"]). -/
def click_count (rows : List Row) : Nat :=
  (rows.filter (fun r => decide (r.event = "Clicked Link"))).length

/-- len(df[df["event"] == "Submitted Data"]). -/
def submit_count (rows : List Row) : Nat :=
  (rows.filter (fun r => decide (r.event = "Submitted Data"))).length

/-- The emails of the Email Sent rows (non-null values, as nunique counts). -/
def sentEmails (rows : List Row) : List String :=
  (rows.filter (fun r => decide (r.event = "Email Sent"))).filterMap
    (fun r => r.email)

/-- emails_sent_df["email"].nunique(): the number of distinct non-null emails
among the Email Sent rows. -/
def total_targets (rows : List Row) : Nat :=
  (sentEmails rows).dedup.length

/-! ### Credential schema discovery and credential rows -/

/-- Code-point lexicographic comparison of character lists, which is how
Python compares strings. -/
def lexLe : List Char → List Char → Bool
  | [], _ => true
  | _ :: _, [] => false
  | a :: as, b :: bs =>
    if a.toNat < b.toNat then true
    else if b.toNat < a.toNat then false
    else lexLe as bs

/-- Python string comparison a <= b. -/
def strLe (a b : String) : Bool := lexLe a.data b.data

/-- The credentials column of the dataframe. -/
def credsColumn (rows : List Row) : List (Option (List (String × JVal))) :=
  rows.map (fun r => r.credentials)

/-- Every field name occurring in any non-null credentials cell. -/
def allCredKeys (col : List (Option (List (String × JVal)))) : List String :=
  ((col.filterMap id).map (fun c => c.map Prod.fst)).flatten

/-- fieldnames = sorted({k for c in df["credentials"].dropna() for k, _ in c}):
the distinct field names, sorted lexicographically. -/
def fieldnames (col : List (Option (List (String × JVal)))) : List String :=
  List.insertionSort (fun a b => strLe a b = true) (allCredKeys col).dedup

/-- cred_dict.get(f, "N/A") where cred_dict = {k: v for k, v in creds}:
a Python dict comprehension keeps the last value of a duplicated key, so the
lookup searches the reversed pair list. -/
def dictGet (c : List (String × JVal)) (f : String) : JVal :=
  (alistGet c.reverse f).getD (.jstr "N/A")

/-- One row of the captured-credentials table. -/
structure CredRow where
  timestamp : String
  ip : String
  location : String
  isp : String
  fields : List JVal

/-- Build the CredRow of one Submitted Data row with truthy credentials. -/
def mkCredRow (geo : String → Geo) (r : Row) (c : List (String × JVal))
    (fns : List String) : CredRow :=
  { timestamp := r.ts.getD "N/A",
    ip := orNA r.ip,
    location := match r.ip with
      | some ip => if ip = "" then "N/A" else (geo ip).1
      | none => "N/A",
    isp := match r.ip with
      | some ip => if ip = "" then "N/A" else (geo ip).2
      | none => "N/A",
    fields := fns.map (dictGet c) }

/-- The credentials_rows loop: over the Submitted Data rows, keep those whose
credentials cell is truthy (a non-empty list) and render a CredRow aligned
to the discovered schema. -/
def credentials_rows (geo : String → Geo) (rows : List Row)
    (fns : List String) : List CredRow :=
  (rows.filter (fun r => decide (r.event = "Submitted Data"))).foldl
    (fun acc r =>
      match r.credentials with
      | some c => if c.isEmpty then acc else acc ++ [mkCredRow geo r c fns]
      | none => acc) []

/-! ### Per-source-IP activity dossiers

The source builds ip_activity with two near-duplicate loops over the same
rows: the first creates dossiers and accumulates user agents, the second
repeats both and additionally appends the timeline events.  Both loops share
the same eligibility guard and the same creation body. -/

/-- One per-address dossier.  The user_agents Python set is modelled as a
membership-guarded append list (first-occurrence order); its elements are
what determine the set. -/
structure Dossier where
  ip : String
  location : String
  isp : String
  user_agents : List String
  events : List UserEvent
  credential_rows : List CredRow

/-- ip_activity, an insertion-ordered dict from address to dossier. -/
abbrev IpMap := List (String × Dossier)

/-- The eligibility guard shared by both loops:
if not ip or pd.isna(ip) or ip.startswith(PRIVATE_IP_PREFIXES): continue. -/
def eligIp (r : Row) : Option String :=
  match r.ip with
  | none => none
  | some s => if s = "" then none else if isPrivateIp s then none else some s

/-- The dossier created on first sight of an address: Geo resolved once at
creation, empty user-agent set and timeline, pre-grouped credential rows. -/
def mkDossier (geo : String → Geo) (credMap : String → List CredRow)
    (ip : String) : Dossier :=
  { ip := ip, location := (geo ip).1, isp := (geo ip).2, user_agents := [],
    events := [], credential_rows := credMap ip }

/-- if ip not in ip_activity: create the dossier (appended in insertion
order). -/
def ensureDossier (geo : String → Geo) (credMap : String → List CredRow)
    (m : IpMap) (ip : String) : IpMap :=
  if (alistGet m ip).isSome then m else m ++ [(ip, mkDossier geo credMap ip)]

/-- Set-add of one user agent into a dossier, modelled as membership-guarded
append. -/
def uaAdd (u : String) (d : Dossier) : Dossier :=
  { d with user_agents :=
      if u ∈ d.user_agents then d.user_agents else d.user_agents ++ [u] }

/-- The user-agent accumulation guarded by Python truthiness of the cell. -/
def uaAddO : Option String → Dossier → Dossier
  | none, d => d
  | some u, d => if u = "" then d else uaAdd u d

/-- if ua and pd.notna(ua): ip_activity[ip]["user_agents"].add(ua) —
applied at the dossier of this key. -/
def addUA (m : IpMap) (ip : String) (ua : Option String) : IpMap :=
  match ua with
  | none => m
  | some u =>
    if u = "" then m
    else m.map (fun p => if p.1 = ip then (p.1, uaAdd u p.2) else p)

/-- The timeline entry appended by the second loop, reading location and isp
back out of the dossier stored at this key. -/
def mkIpEvent (d : Dossier) (r : Row) (ip : String) : UserEvent :=
  { timestamp := r.ts.getD "N/A", event := r.event, ip := ip,
    location := d.location, isp := d.isp, ua := orNA r.ua }

/-- Appending the timeline entry of one row to a dossier. -/
def evAdd (r : Row) (ip : String) (d : Dossier) : Dossier :=
  { d with events := d.events ++ [mkIpEvent d r ip] }

/-- ip_activity[ip]["events"].append(...). -/
def pushIpEvent (m : IpMap) (ip : String) (r : Row) : IpMap :=
  m.map (fun p => if p.1 = ip then (p.1, evAdd r ip p.2) else p)

/-- The body of the first accumulation loop: guard, ensure the dossier,
accumulate the user agent. -/
def step1 (geo : String → Geo) (credMap : String → List CredRow) (m : IpMap)
    (r : Row) : IpMap :=
  match eligIp r with
  | none => m
  | some ip => addUA (ensureDossier geo credMap m ip) ip r.ua

/-- The body of the second accumulation loop: guard, ensure the dossier,
accumulate the user agent, append the timeline event.  This body is also
exactly what one combined single-pass iteration does. -/
def step2 (geo : String → Geo) (credMap : String → List CredRow) (m : IpMap)
    (r : Row) : IpMap :=
  match eligIp r with
  | none => m
  | some ip => pushIpEvent (addUA (ensureDossier geo credMap m ip) ip r.ua) ip r

/-- The source's ip_activity: the first loop over all rows, then the second
loop over the same rows. -/
def twoLoopActivity (geo : String → Geo) (credMap : String → List CredRow)
    (rows : List Row) : IpMap :=
  rows.foldl (step2 geo credMap) (rows.foldl (step1 geo credMap) [])

/-- The single linear pass the spec asks to compare against: one traversal
whose iteration creates the dossier on first sight, accumulates the user
agent and appends the event — i.e. the second loop's body run from the empty
map. -/
def singlePassActivity (geo : String → Geo) (credMap : String → List CredRow)
    (rows : List Row) : IpMap :=
  rows.foldl (step2 geo credMap) []

/-- The ip_cred_map pre-grouping: credential rows with a non-private ip
string, grouped by that ip. -/
def ipCredMap (crs : List CredRow) (ip : String) : List CredRow :=
  crs.filter (fun c => !isPrivateIp c.ip && decide (c.ip = ip))

/-- The canonical timeline entry of a row at an address whose dossier was
created from the resolver: what mkIpEvent produces for any well-formed
dossier of that address. -/
def mkIpEventC (geo : String → Geo) (ip : String) (r : Row) : UserEvent :=
  { timestamp := r.ts.getD "N/A", event := r.event, ip := ip,
    location := (geo ip).1, isp := (geo ip).2, ua := orNA r.ua }

/-! ### Auxiliary definitions used by the statements below -/

/-- The total flattening rule applied to a value that does not raise:
first element of a non-empty list, anything else verbatim. -/
def flat1 : JVal → JVal
  | .jarr (x :: _) => x
  | .jarr [] => .jarr []
  | v => v

/-- A concrete decoder mapping the tag d7w to a payload-only JSON dict
(no browser key) whose fields are k = 5 and l = a two-element list. -/
def parse7w : String → Option JVal := fun s =>
  if s = "d7w" then
    some (.jobj [("payload", .jobj [("k", .jnum 5),
                                    ("l", .jarr [.jstr "x", .jstr "y"])])])
  else none

/-- The truthiness test the credentials_rows loop applies to a credentials
cell: a non-null, non-empty pair list. -/
def credTruthy : Option (List (String × JVal)) → Bool
  | some (_ :: _) => true
  | _ => false

/-- The key sequence of an ip_activity map. -/
def keysOf (m : IpMap) : List String := m.map Prod.fst

/-- A dossier with its timeline forgotten. -/
def eraseD (d : Dossier) : Dossier := { d with events := [] }

/-- Forget every dossier timeline (used to compare the accumulation loops
modulo events). -/
def eraseEvents (m : IpMap) : IpMap := m.map (fun p => (p.1, eraseD p.2))

/-- The keys of the map are pairwise distinct — every map either loop builds
satisfies this, since dossiers are only appended on a lookup miss. -/
def NodupKeys (m : IpMap) : Prop := (keysOf m).Nodup

/-- The timeline stored for an address (empty when no dossier exists). -/
def eventsAt (m : IpMap) (ip : String) : List UserEvent :=
  ((alistGet m ip).map Dossier.events).getD []

/-- The user-agent list stored for an address (empty when no dossier
exists). -/
def uasAt (m : IpMap) (ip : String) : List String :=
  ((alistGet m ip).map Dossier.user_agents).getD []

/-- Every dossier of the map carries its own key and the canonical
resolver/credential data for that key: an invariant of all maps the
accumulation loops build. -/
def GoodMap (geo : String → Geo) (credMap : String → List CredRow)
    (m : IpMap) : Prop :=
  ∀ p ∈ m, p.2.ip = p.1 ∧ p.2.location = (geo p.1).1 ∧
    p.2.isp = (geo p.1).2 ∧ p.2.credential_rows = credMap p.1

/-- The rows attributed to one address by the eligibility guard, in input
order. -/
def eligRows (rows : List Row) (ip : String) : List Row :=
  rows.filter (fun r => decide (eligIp r = some ip))

/-- A concrete injective resolved-geolocation map used by concrete
instantiations. -/
def geoTest : String → Geo := fun ip => ("loc " ++ ip, "org " ++ ip)

/-- The per-row Option producer equivalent to the credentials_rows loop
body: None for a null or empty credentials cell, the rendered CredRow
otherwise. -/
def credRowOf (geo : String → Geo) (fns : List String) (r : Row) :
    Option CredRow :=
  match r.credentials with
  | some c => if c.isEmpty then none else some (mkCredRow geo r c fns)
  | none => none

/-- A concrete Submitted Data row with one captured field. -/
def row6a : Row :=
  { email := some "u@x", ts := some "2025-01-01T00:00:00+00:00",
    event := "Submitted Data", ip := some "8.8.8.8", ua := some "UA1",
    credentials := some [("password", JVal.jstr "b")] }

/-- A one-row input whose single row submits one field. -/
def rows6 : List Row := [row6a]

/-- A concrete Submitted Data row with an empty extracted field list (its
payload held only client_id). -/
def row10b : Row :=
  { email := some "u@x", ts := none, event := "Submitted Data",
    ip := some "8.8.8.8", ua := none, credentials := some [] }

/-- Two Submitted Data rows of which only the first yields a credential
row. -/
def rows10 : List Row := [row6a, row10b]

/-- A concrete Email Sent row. -/
def rowSent : Row :=
  { email := some "u1", ts := none, event := "Email Sent", ip := none,
    ua := none, credentials := none }

/-- A concrete Email Opened row for the same recipient. -/
def rowOpened : Row :=
  { email := some "u1", ts := none, event := "Email Opened",
    ip := some "9.9.9.9", ua := some "UA", credentials := none }

/-- A concrete Clicked Link row for the same recipient. -/
def rowClicked : Row :=
  { email := some "u1", ts := none, event := "Clicked Link",
    ip := some "9.9.9.9", ua := some "UA", credentials := none }

/-- A sent-then-clicked two-row input for one recipient. -/
def rows4 : List Row := [rowSent, rowClicked]

/-- The timeline entry the user view renders for rowSent. -/
def uev1 : UserEvent :=
  { event := "Email Sent", timestamp := "N/A", ip := "N/A",
    location := "N/A", isp := "N/A", ua := "N/A" }

/-- The timeline entry the user view renders for rowClicked under
geoTest. -/
def uev2 : UserEvent :=
  { event := "Clicked Link", timestamp := "N/A", ip := "9.9.9.9",
    location := "loc 9.9.9.9", isp := "org 9.9.9.9", ua := "UA" }

/-- A row whose source address is the empty string: Python-falsy, hence
skipped by both dossier loops, though non-null and not private-prefixed. -/
def rowBlankIp : Row :=
  { email := some "u1", ts := none, event := "Email Opened", ip := some "",
    ua := none, credentials := none }

/-- A clicked-then-opened two-row input from one public address. -/
def rows9 : List Row := [rowClicked, rowOpened]

/-- The timeline entry of rowOpened in the per-IP view under geoTest. -/
def uev3 : UserEvent :=
  { event := "Email Opened", timestamp := "N/A", ip := "9.9.9.9",
    location := "loc 9.9.9.9", isp := "org 9.9.9.9", ua := "UA" }

/-- The dossier both accumulation strategies build for rows9. -/
def dossier9 : Dossier :=
  { ip := "9.9.9.9", location := "loc 9.9.9.9", isp := "org 9.9.9.9",
    user_agents := ["UA"], events := [uev2, uev3], credential_rows := [] }

/-! ## Theorems -/

/-- A cache hit returns the cached pair, leaves the cache unchanged and
issues no external lookup. -/
theorem lookup_ip_of_cached (ext : String → Option GeoResp) (cache : GeoCache)
    (ip : Option String) (g : Geo) (h : cacheGet cache ip = some g) :
    lookup_ip ext cache ip = (g, cache, []) := by
  unfold lookup_ip
  rw [h]

/-- After any call, the cache maps the requested address to the returned
pair. -/
theorem cacheGet_after_lookup (ext : String → Option GeoResp)
    (cache : GeoCache) (ip : Option String) :
    cacheGet (lookup_ip ext cache ip).2.1 ip = some (lookup_ip ext cache ip).1 := by
  unfold lookup_ip
  cases h : cacheGet cache ip with
  | some g => simpa using h
  | none =>
    cases ip with
    | none => simp [cacheGet]
    | some s =>
      by_cases hs : s = ""
      · simp [hs, cacheGet]
      · by_cases hp : isPrivateIp s
        · simp [hs, hp, cacheGet]
        · cases hext : ext s with
          | some resp => simp [hs, hp, hext, cacheGet]
          | none => simp [hs, hp, hext, cacheGet]

/-- C1: resolving the same address a second time within one run returns a
result identical to the first resolution, leaves the cache untouched and
issues no second external lookup — for every address (including None) and
every external collaborator behaviour, in particular when the first
resolution failed and cached the failure sentinel. -/
theorem lookup_ip_memoized (ext : String → Option GeoResp) (cache : GeoCache)
    (ip : Option String) :
    lookup_ip ext (lookup_ip ext cache ip).2.1 ip
      = ((lookup_ip ext cache ip).1, (lookup_ip ext cache ip).2.1, []) :=
  lookup_ip_of_cached ext _ ip _ (cacheGet_after_lookup ext cache ip)

/-- C2: a private/reserved-prefixed address never triggers an external call
and (when not already cached) resolves to the fixed Private/Reserved
sentinel pair; a null address never triggers an external call and resolves
to the fixed N/A sentinel pair; the classification is plain string-prefix
matching, so 172.32.0.1 is not private and is sent to the external
collaborator. -/
theorem lookup_ip_private_and_null (ext : String → Option GeoResp) :
    (∀ (cache : GeoCache) (s : String), isPrivateIp s = true →
        (lookup_ip ext cache (some s)).2.2 = [] ∧
        (cacheGet cache (some s) = none →
          (lookup_ip ext cache (some s)).1 = ("Private/Reserved", "Private/Reserved"))) ∧
    (∀ cache : GeoCache, (lookup_ip ext cache none).2.2 = [] ∧
        (cacheGet cache none = none →
          (lookup_ip ext cache none).1 = ("N/A", "N/A"))) ∧
    isPrivateIp "172.32.0.1" = false ∧
    (lookup_ip ext [] (some "172.32.0.1")).2.2 = ["172.32.0.1"] := by
  refine ⟨?_, ?_, by decide, ?_⟩
  · intro cache s hp
    have hs : ¬s = "" := by
      intro h
      rw [h] at hp
      exact absurd hp (by decide)
    cases h : cacheGet cache (some s) with
    | some g => simp [lookup_ip_of_cached ext cache (some s) g h]
    | none =>
      constructor
      · unfold lookup_ip
        simp [h, hs, hp]
      · intro _
        unfold lookup_ip
        simp [h, hs, hp]
  · intro cache
    cases h : cacheGet cache none with
    | some g => simp [lookup_ip_of_cached ext cache none g h]
    | none =>
      constructor
      · unfold lookup_ip
        simp [h]
      · intro _
        unfold lookup_ip
        simp [h]
  · unfold lookup_ip
    cases hext : ext "172.32.0.1" with
    | some resp => simp [hext, cacheGet, show ("172.32.0.1" : String) ≠ "" by decide,
        show isPrivateIp "172.32.0.1" = false by decide]
    | none => simp [hext, cacheGet, show ("172.32.0.1" : String) ≠ "" by decide,
        show isPrivateIp "172.32.0.1" = false by decide]

/-- Witness for C2 at a concrete private address with a failing collaborator
and a cold cache. -/
theorem lookup_ip_private_and_null_witness :
    isPrivateIp "10.0.0.5" = true ∧
    (lookup_ip (fun _ => none) [] (some "10.0.0.5")).1
      = ("Private/Reserved", "Private/Reserved") ∧
    (lookup_ip (fun _ => none) [] (some "10.0.0.5")).2.2 = [] := by
  have h := lookup_ip_private_and_null (fun _ => none)
  exact ⟨by decide, (h.1 [] "10.0.0.5" (by decide)).2 rfl,
    (h.1 [] "10.0.0.5" (by decide)).1⟩

/-- C3 (code-bug evaluation): one well-formed JSON row whose top-level
payload field is a string rather than an object.  The extraction loop
appends the address and user agent inside the try block, then raises at
payload.get, and the bare-except handler appends a second entry, so the ips
column ends with two entries for a single input row while the credentials
column has one — the columns are misaligned and the subsequent dataframe
column assignment aborts the run, instead of the row degrading to a single
all-null enrichment. -/
theorem extraction_misaligned_on_nondict_payload :
    (extractAll
        (fun s => if s = "d3" then some (.jobj [("payload", .jstr "x")]) else none)
        [("Email Opened", some "d3")]).ips.length = 2 ∧
    (extractAll
        (fun s => if s = "d3" then some (.jobj [("payload", .jstr "x")]) else none)
        [("Email Opened", some "d3")]).creds.length = 1 ∧
    [("Email Opened", some "d3")].length = 1 :=
  ⟨rfl, rfl, rfl⟩

/-- C7 (counterexample): a Submitted Data row whose payload carries the
non-string, non-list value 5 for field k.  The claim says such a value is
dropped; the code keeps the pair (k, 5) verbatim in the submitted fields. -/
theorem submitted_nonstring_kept_counterexample :
    (extractAll
        (fun s => if s = "d7" then
          some (.jobj [("payload", .jobj [("k", .jnum 5)])]) else none)
        [("Submitted Data", some "d7")]).creds
      = [some [("k", JVal.jnum 5)]] ∧
    ([("k", JVal.jnum 5)] : List (String × JVal)) ≠ [] :=
  ⟨rfl, by simp⟩

/-- A successful value flattening yields exactly the total flattening
rule: first element of a non-empty list, anything else verbatim. -/
theorem flatVal_ok (v w : JVal) (h : flatVal v = .ok w) : w = flat1 v := by
  cases v with
  | jarr l =>
    cases l with
    | nil => simp [flatVal, jfirst] at h
    | cons x xs =>
      simp only [flatVal, jfirst, Except.ok.injEq] at h
      exact h.symm
  | jnull =>
    simp only [flatVal, Except.ok.injEq] at h
    exact h.symm
  | jbool b =>
    simp only [flatVal, Except.ok.injEq] at h
    exact h.symm
  | jnum n =>
    simp only [flatVal, Except.ok.injEq] at h
    exact h.symm
  | jstr s =>
    simp only [flatVal, Except.ok.injEq] at h
    exact h.symm
  | jobj m =>
    simp only [flatVal, Except.ok.injEq] at h
    exact h.symm

/-- A credential comprehension that does not raise produces exactly one
flattened pair per non-client_id payload key, in payload order. -/
theorem extractPairs_ok_eq (pm : List (String × JVal)) :
    ∀ ex, extractPairs pm = .ok ex →
    ex = pm.filterMap (fun kv =>
      if kv.1 = "client_id" then none else some (kv.1, flat1 kv.2)) := by
  induction pm with
  | nil =>
    intro ex h
    simp only [extractPairs, Except.ok.injEq] at h
    simp [← h]
  | cons kv t ih =>
    intro ex h
    obtain ⟨k, v⟩ := kv
    by_cases hk : k = "client_id"
    · simp only [extractPairs, if_pos hk] at h
      simp [List.filterMap_cons, hk, ih ex h]
    · simp only [extractPairs, if_neg hk] at h
      cases hfv : flatVal v with
      | error e =>
        rw [hfv] at h
        exact absurd
          (show (Except.error e : Except Unit (List (String × JVal)))
              = .ok ex from h)
          (by simp)
      | ok w =>
        rw [hfv] at h
        cases hep : extractPairs t with
        | error e =>
          rw [hep] at h
          exact absurd
            (show (Except.error e : Except Unit (List (String × JVal)))
                = .ok ex from h)
            (by simp)
        | ok rest =>
          rw [hep] at h
          have h2 : ((k, w) :: rest : List (String × JVal)) = ex := by
            have h3 : (Except.ok ((k, w) :: rest)
                : Except Unit (List (String × JVal))) = .ok ex := h
            simpa using h3
          rw [← h2, List.filterMap_cons]
          simp [hk, flatVal_ok v w hfv, ih rest hep]

/-- Appending a null credentials cell never equals appending a non-null
one. -/
theorem none_append_ne (cl : List (Option (List (String × JVal))))
    (ex : List (String × JVal)) :
    cl ++ [none] = cl ++ [some ex] → False := by
  intro h
  have h2 := List.append_cancel_left h
  simp at h2

/-- C7 (amended): the submitted-fields cell appended for a row is non-null
only when the event kind is exactly Submitted Data; and whenever the cell
is non-null, the details decoded to a JSON dict whose payload entry (the
empty dict when the key is absent) is a dict pm, and the cell holds exactly
one (name, value) pair for each key of pm other than the correlation-token
key client_id — a list-valued entry contributing only its first element and
a non-string, non-list value kept verbatim, not dropped and not
stringified.  A row whose extraction raises gets a null cell instead and so
falls outside the non-null case. -/
theorem submitted_fields_extraction (parse : String → Option JVal)
    (event : String) (details : Option String) (c : Cols) :
    (event ≠ "Submitted Data" →
      (processDetails parse event details c).creds = c.creds ++ [none]) ∧
    (∀ ex : List (String × JVal),
      (processDetails parse event details c).creds = c.creds ++ [some ex] →
      event = "Submitted Data" ∧
      ∃ (s : String) (j : JVal) (pm : List (String × JVal)),
        details = some s ∧ parse s = some j ∧
        jget j "payload" (.jobj []) = .ok (.jobj pm) ∧
        ex = pm.filterMap (fun kv =>
          if kv.1 = "client_id" then none else some (kv.1, flat1 kv.2))) := by
  constructor
  · intro hev
    unfold processDetails
    cases details with
    | none => simp [pushNone, pushRow]
    | some s =>
      by_cases hb : isBlank s
      · simp [hb, pushNone, pushRow]
      · simp only [hb, Bool.false_eq_true, if_false]
        cases hp : parse s with
        | none => simp [pushNone, pushRow]
        | some j =>
          cases h1 : jget j "browser" (.jobj []) with
          | error e => simp [h1, pushNone, pushRow]
          | ok browser =>
            cases h2 : jget browser "address" .jnull with
            | error e => simp [h1, h2, pushNone, pushRow]
            | ok ip =>
              cases h3 : jget browser "user-agent" .jnull with
              | error e => simp [h1, h2, h3]
              | ok ua =>
                cases h4 : jget j "payload" (.jobj []) with
                | error e => simp [h1, h2, h3, h4]
                | ok payload =>
                  cases h5 : cidStep payload with
                  | error e => simp [h1, h2, h3, h4, h5]
                  | ok cid => simp [h1, h2, h3, h4, h5, hev, pushRow]
  · intro ex hex
    unfold processDetails at hex
    repeat' split at hex
    all_goals try exact (none_append_ne c.creds ex hex).elim
    refine ⟨by assumption, _, _, _, rfl, by assumption, by assumption, ?_⟩
    have h6 := List.append_cancel_left
      (show c.creds ++ [some _] = c.creds ++ [some ex] from hex)
    simp only [List.cons.injEq, Option.some_inj, and_true] at h6
    rw [← h6]
    exact extractPairs_ok_eq _ _ (by assumption)

/-- Witness for C7 amended: a non-Submitted row appends a null cell, and a
Submitted Data row whose details are a payload-only JSON dict (no browser
key) with fields k = 5 and l = [x, y] gets a non-null cell equal to the
pairs (k, 5) — the non-string, non-list value kept verbatim — and
(l, x) — the list contributing its first element. -/
theorem submitted_fields_extraction_witness :
    (processDetails parse7w "Email Opened" none ⟨[], [], [], []⟩).creds
      = [] ++ [none] ∧
    (("Submitted Data" : String) = "Submitted Data" ∧
      ∃ (s : String) (j : JVal) (pm : List (String × JVal)),
        (some "d7w" : Option String) = some s ∧ parse7w s = some j ∧
        jget j "payload" (.jobj []) = .ok (.jobj pm) ∧
        [("k", JVal.jnum 5), ("l", JVal.jstr "x")]
          = pm.filterMap (fun kv =>
              if kv.1 = "client_id" then none else some (kv.1, flat1 kv.2))) := by
  refine ⟨?_, ?_⟩
  · exact (submitted_fields_extraction parse7w "Email Opened" none
      ⟨[], [], [], []⟩).1 (by decide)
  · exact (submitted_fields_extraction parse7w "Submitted Data" (some "d7w")
      ⟨[], [], [], []⟩).2 [("k", JVal.jnum 5), ("l", JVal.jstr "x")] rfl

/-- Folding an optional-producer append over a list from any accumulator is
the accumulator followed by the filterMap. -/
theorem foldl_opt_append {α β : Type} (f : α → Option β) (l : List α)
    (acc : List β) :
    l.foldl (fun a r => a ++ (f r).toList) acc = acc ++ l.filterMap f := by
  induction l generalizing acc with
  | nil => simp
  | cons x t ih =>
    cases hx : f x with
    | none => simp [List.foldl_cons, hx, ih, List.filterMap_cons]
    | some b => simp [List.foldl_cons, hx, ih, List.filterMap_cons]

/-- The credentials_rows loop is the filterMap of its per-row producer over
the Submitted Data rows. -/
theorem credentials_rows_eq (geo : String → Geo) (rows : List Row)
    (fns : List String) :
    credentials_rows geo rows fns
      = (rows.filter (fun r => decide (r.event = "Submitted Data"))).filterMap
          (credRowOf geo fns) := by
  unfold credentials_rows
  have h : (fun (acc : List CredRow) (r : Row) =>
        match r.credentials with
        | some c => if c.isEmpty then acc else acc ++ [mkCredRow geo r c fns]
        | none => acc)
      = (fun acc r => acc ++ (credRowOf geo fns r).toList) := by
    funext acc r
    cases hc : r.credentials with
    | none => simp [credRowOf, hc]
    | some c => by_cases he : c.isEmpty <;> simp [credRowOf, hc, he]
  rw [h]
  simpa using foldl_opt_append (credRowOf geo fns)
    (rows.filter (fun r => decide (r.event = "Submitted Data"))) []

/-- An association list without the key yields no value. -/
theorem alistGet_eq_none_of_not_mem {α : Type} (l : List (String × α))
    (f : String) (h : ∀ v, (f, v) ∉ l) : alistGet l f = none := by
  induction l with
  | nil => rfl
  | cons kv t ih =>
    obtain ⟨k, v⟩ := kv
    by_cases hk : k = f
    · exact absurd (by rw [hk]; exact List.mem_cons_self _ _) (h v)
    · simp only [alistGet, if_neg hk]
      exact ih (fun w hw => h w (List.mem_cons_of_mem _ hw))

/-- A field name absent from the submission is rendered as the N/A
marker. -/
theorem dictGet_of_not_key (c : List (String × JVal)) (f : String)
    (h : ∀ v, (f, v) ∉ c) : dictGet c f = JVal.jstr "N/A" := by
  unfold dictGet
  rw [alistGet_eq_none_of_not_mem]
  · rfl
  · intro v hv
    exact h v (List.mem_reverse.mp hv)

/-- C8: the four funnel counts are plain per-row tallies of the matching
event kind (counting duplicates, additively over concatenation, so a
recipient opening twice contributes two), while total_targets counts
distinct recipients over the Email Sent rows — concretely, two identical
Email Opened rows tally 2 and two identical Email Sent rows for one
recipient yield total_targets 1. -/
theorem funnel_counts_are_tallies (rows : List Row) :
    sent_count rows = rows.countP (fun r => decide (r.event = "Email Sent")) ∧
    open_count rows = rows.countP (fun r => decide (r.event = "Email Opened")) ∧
    click_count rows = rows.countP (fun r => decide (r.event = "Clicked Link")) ∧
    submit_count rows = rows.countP (fun r => decide (r.event = "Submitted Data")) ∧
    (∀ more : List Row,
      open_count (rows ++ more) = open_count rows + open_count more) ∧
    (∀ a : String, a ∈ (sentEmails rows).dedup ↔
      ∃ r ∈ rows, r.event = "Email Sent" ∧ r.email = some a) ∧
    total_targets rows = (sentEmails rows).dedup.length ∧
    open_count [rowOpened, rowOpened] = 2 ∧
    sent_count [rowSent, rowSent] = 2 ∧
    total_targets [rowSent, rowSent] = 1 := by
  refine ⟨(List.countP_eq_length_filter _ _).symm,
    (List.countP_eq_length_filter _ _).symm,
    (List.countP_eq_length_filter _ _).symm,
    (List.countP_eq_length_filter _ _).symm, ?_, ?_, rfl, rfl, rfl, ?_⟩
  · intro more
    simp [open_count, List.filter_append]
  · intro a
    simp only [sentEmails, List.mem_dedup, List.mem_filterMap, List.mem_filter,
      decide_eq_true_eq]
    tauto
  · rfl

/-- C10: the credential-rows list has one entry per Submitted Data row whose
credentials cell is a non-empty pair list; Submitted Data rows whose cell is
null (malformed payload) or an empty list (payload held only client_id) are
excluded, so — concretely on rows10 — submit_count is 2 while only one
credential row is produced. -/
theorem credentials_rows_per_submitted (geo : String → Geo) (rows : List Row)
    (fns : List String) :
    (credentials_rows geo rows fns).length
      = rows.countP (fun r =>
          decide (r.event = "Submitted Data") && credTruthy r.credentials) ∧
    submit_count rows10 = 2 ∧
    (credentials_rows geoTest rows10 ["password"]).length = 1 := by
  refine ⟨?_, rfl, rfl⟩
  rw [credentials_rows_eq]
  induction rows with
  | nil => rfl
  | cons r t ih =>
    by_cases he : r.event = "Submitted Data"
    · cases hc : r.credentials with
      | none =>
        simp [List.filter_cons, he, List.countP_cons, credRowOf, hc, credTruthy,
          ih, List.filterMap_cons]
      | some c =>
        cases c with
        | nil =>
          simp [List.filter_cons, he, List.countP_cons, credRowOf, hc, credTruthy,
            ih, List.filterMap_cons]
        | cons x xs =>
          simp [List.filter_cons, he, List.countP_cons, credRowOf, hc, credTruthy,
            ih, List.filterMap_cons]
    · simp [List.filter_cons, he, List.countP_cons, ih]

/-- C6: every produced credential row has exactly one field value per name
of the supplied schema — its fields list has the schema's length — and it
comes from a Submitted Data row whose submission c renders each schema name
through dictGet, with every name the submission lacks filled by the explicit
N/A marker rather than omitted. -/
theorem credential_rows_uniform_width (geo : String → Geo) (rows : List Row)
    (fns : List String) (cr : CredRow)
    (hcr : cr ∈ credentials_rows geo rows fns) :
    cr.fields.length = fns.length ∧
    ∃ r ∈ rows, r.event = "Submitted Data" ∧ ∃ c, r.credentials = some c ∧
      cr.fields = fns.map (dictGet c) ∧
      ∀ f ∈ fns, (∀ v, (f, v) ∉ c) → dictGet c f = JVal.jstr "N/A" := by
  rw [credentials_rows_eq] at hcr
  obtain ⟨r, hr, hcro⟩ := List.mem_filterMap.mp hcr
  obtain ⟨hrmem, hrev⟩ := List.mem_filter.mp hr
  cases hc : r.credentials with
  | none => simp [credRowOf, hc] at hcro
  | some c =>
    by_cases hce : c.isEmpty
    · simp [credRowOf, hc, hce] at hcro
    · simp only [credRowOf, hc, hce, Bool.false_eq_true, if_false] at hcro
      rw [Option.some_inj] at hcro
      subst hcro
      refine ⟨by simp [mkCredRow], r, hrmem, by simpa using hrev, c, hc,
        rfl, ?_⟩
      intro f _ hnot
      exact dictGet_of_not_key c f hnot

/-- Witness for C6 at a one-row input and a two-name schema: the produced
row is in the list and its fields have width 2. -/
theorem credential_rows_uniform_width_witness :
    mkCredRow geoTest row6a [("password", JVal.jstr "b")] ["password", "username"]
      ∈ credentials_rows geoTest rows6 ["password", "username"] ∧
    (mkCredRow geoTest row6a [("password", JVal.jstr "b")]
      ["password", "username"]).fields.length = 2 := by
  have hm : credentials_rows geoTest rows6 ["password", "username"]
      = [mkCredRow geoTest row6a [("password", JVal.jstr "b")]
          ["password", "username"]] := rfl
  constructor
  · rw [hm]
    exact List.mem_singleton_self _
  · exact (credential_rows_uniform_width geoTest rows6 ["password", "username"]
      _ (by rw [hm]; exact List.mem_singleton_self _)).1

/-- Code-point comparison of character lists is total. -/
theorem lexLe_total (a : List Char) : ∀ b, lexLe a b = true ∨ lexLe b a = true := by
  induction a with
  | nil => intro b; left; rfl
  | cons x xs ih =>
    intro b
    cases b with
    | nil => right; rfl
    | cons y ys =>
      simp only [lexLe]
      by_cases h1 : x.toNat < y.toNat
      · left; simp [h1]
      · by_cases h2 : y.toNat < x.toNat
        · right; simp [h1, h2]
        · rcases ih ys with h | h
          · left; simp [h1, h2, h]
          · right; simp [h1, h2, h]

/-- Code-point comparison of character lists is transitive. -/
theorem lexLe_trans (a : List Char) :
    ∀ b c, lexLe a b = true → lexLe b c = true → lexLe a c = true := by
  induction a with
  | nil => intro b c _ _; rfl
  | cons x xs ih =>
    intro b c hab hbc
    cases b with
    | nil => simp [lexLe] at hab
    | cons y ys =>
      cases c with
      | nil => simp [lexLe] at hbc
      | cons z zs =>
        simp only [lexLe] at hab hbc ⊢
        by_cases h1 : x.toNat < y.toNat
        · by_cases h2 : y.toNat < z.toNat
          · simp [show x.toNat < z.toNat by omega]
          · by_cases h3 : z.toNat < y.toNat
            · simp [h2, h3] at hbc
            · simp [show x.toNat < z.toNat by omega]
        · by_cases h4 : y.toNat < x.toNat
          · simp [h1, h4] at hab
          · simp only [h1, h4, if_false] at hab
            by_cases h2 : y.toNat < z.toNat
            · simp [show x.toNat < z.toNat by omega]
            · by_cases h3 : z.toNat < y.toNat
              · simp [h2, h3] at hbc
              · simp only [h2, h3, if_false] at hbc
                simp only [show ¬x.toNat < z.toNat by omega,
                  show ¬z.toNat < x.toNat by omega, if_false]
                exact ih ys zs hab hbc

instance : IsTotal String (fun a b => strLe a b = true) :=
  ⟨fun a b => lexLe_total a.data b.data⟩

instance : IsTrans String (fun a b => strLe a b = true) :=
  ⟨fun a b c => lexLe_trans a.data b.data c.data⟩

/-- C5: the discovered schema is sorted in code-point order, has no
duplicate, and holds exactly the field names occurring in some non-null
credentials cell; concretely, a single Submitted Data row with payload
fields username = a, password = b and client_id = [x] extracts the two
pairs, yields the schema [password, username], and its credential row lists
the values [b, a] in that schema order. -/
theorem fieldnames_sorted_schema (col : List (Option (List (String × JVal)))) :
    List.Sorted (fun a b => strLe a b = true) (fieldnames col) ∧
    (fieldnames col).Nodup ∧
    (∀ a, a ∈ fieldnames col ↔ ∃ c, some c ∈ col ∧ ∃ v, (a, v) ∈ c) ∧
    (extractAll
        (fun s => if s = "d5" then
          some (.jobj [("payload",
            .jobj [("username", .jstr "a"), ("password", .jstr "b"),
                   ("client_id", .jarr [.jstr "x"])])]) else none)
        [("Submitted Data", some "d5")]).creds
      = [some [("username", JVal.jstr "a"), ("password", JVal.jstr "b")]] ∧
    fieldnames [some [("username", JVal.jstr "a"), ("password", JVal.jstr "b")]]
      = ["password", "username"] ∧
    (credentials_rows geoTest
        [{ email := some "u@x", ts := none, event := "Submitted Data",
           ip := none, ua := none,
           credentials := some [("username", JVal.jstr "a"),
                                ("password", JVal.jstr "b")] }]
        ["password", "username"]).map CredRow.fields
      = [[JVal.jstr "b", JVal.jstr "a"]] := by
  refine ⟨List.sorted_insertionSort _ _, ?_, ?_, rfl, ?_, rfl⟩
  · exact ((List.perm_insertionSort _ _).nodup_iff).mpr (List.nodup_dedup _)
  · intro a
    unfold fieldnames
    rw [(List.perm_insertionSort _ _).mem_iff, List.mem_dedup]
    unfold allCredKeys
    simp only [List.mem_flatten, List.mem_map, List.mem_filterMap, id_eq,
      exists_exists_and_eq_and]
    constructor
    · rintro ⟨c, ⟨o, ho, hoc⟩, hac⟩
      subst hoc
      rcases hac with ⟨⟨k, v⟩, hkv, hk⟩
      have hk2 : k = a := hk
      subst hk2
      exact ⟨c, ho, v, hkv⟩
    · rintro ⟨c, hc, v, hv⟩
      exact ⟨c, ⟨c, hc, rfl⟩, ⟨(a, v), hv, rfl⟩⟩
  · decide

/-- The stats loop over users, from any starting triple, adds one per user
to the component selected by that user's classification. -/
theorem stageCounts_go (users : List (String × List UserEvent)) :
    ∀ a b c : Nat,
    users.foldl (fun acc p =>
        let ev := p.2.map (fun e => e.event)
        if "Submitted Data" ∈ ev then (acc.1, acc.2.1, acc.2.2 + 1)
        else if "Clicked Link" ∈ ev then (acc.1, acc.2.1 + 1, acc.2.2)
        else if "Email Opened" ∈ ev then (acc.1 + 1, acc.2.1, acc.2.2)
        else acc) (a, b, c)
      = (a + users.countP (fun p =>
            decide (classifyUser (p.2.map (fun e => e.event)) = some .opened)),
         b + users.countP (fun p =>
            decide (classifyUser (p.2.map (fun e => e.event)) = some .clicked)),
         c + users.countP (fun p =>
            decide (classifyUser (p.2.map (fun e => e.event)) = some .submitted))) := by
  induction users with
  | nil => intro a b c; simp
  | cons u t ih =>
    intro a b c
    simp only [List.foldl_cons, List.countP_cons]
    by_cases hS : "Submitted Data" ∈ u.2.map (fun e => e.event)
    · have hcl : classifyUser (u.2.map (fun e => e.event)) = some .submitted := by
        simp [classifyUser, hS]
      simp only [hS, if_true, eq_self_iff_true, if_pos]
      rw [ih]
      simp only [hcl]
      simp [Prod.ext_iff]
      omega
    · by_cases hC : "Clicked Link" ∈ u.2.map (fun e => e.event)
      · have hcl : classifyUser (u.2.map (fun e => e.event)) = some .clicked := by
          simp [classifyUser, hS, hC]
        simp only [hS, hC, if_false, if_true, if_neg, if_pos]
        rw [ih]
        simp only [hcl]
        simp [Prod.ext_iff, hS, hC]
        omega
      · by_cases hO : "Email Opened" ∈ u.2.map (fun e => e.event)
        · have hcl : classifyUser (u.2.map (fun e => e.event)) = some .opened := by
            simp [classifyUser, hS, hC, hO]
          simp only [hS, hC, hO, if_false, if_true, if_neg, if_pos]
          rw [ih]
          simp only [hcl]
          simp [Prod.ext_iff, hS, hC, hO]
          omega
        · have hcl : classifyUser (u.2.map (fun e => e.event)) = none := by
            simp [classifyUser, hS, hC, hO]
          simp only [hS, hC, hO, if_false, if_neg]
          rw [ih]
          simp only [hcl]
          simp [Prod.ext_iff, hS, hC, hO]

/-- C4: classification is by strict precedence — a user is in the submitted
bucket exactly when a Submitted Data event occurs, in the clicked bucket
exactly when Clicked Link occurs without Submitted Data, in the opened
bucket exactly when Email Opened occurs without the higher two — the three
loop counters are exactly the counts of users classified to each single
bucket (hence pairwise disjoint), and every bucketed user of the view has at
least one Email Opened, Clicked Link or Submitted Data event. -/
theorem funnel_stage_classification (geo : String → Geo) (rows : List Row) :
    (∀ evs : List String,
      (classifyUser evs = some Stage.submitted ↔ "Submitted Data" ∈ evs) ∧
      (classifyUser evs = some Stage.clicked ↔
        "Submitted Data" ∉ evs ∧ "Clicked Link" ∈ evs) ∧
      (classifyUser evs = some Stage.opened ↔
        "Submitted Data" ∉ evs ∧ "Clicked Link" ∉ evs ∧ "Email Opened" ∈ evs)) ∧
    stageCounts (buildUsers geo rows)
      = ((buildUsers geo rows).countP (fun p =>
            decide (classifyUser (p.2.map (fun e => e.event)) = some .opened)),
         (buildUsers geo rows).countP (fun p =>
            decide (classifyUser (p.2.map (fun e => e.event)) = some .clicked)),
         (buildUsers geo rows).countP (fun p =>
            decide (classifyUser (p.2.map (fun e => e.event)) = some .submitted))) ∧
    (∀ p ∈ buildUsers geo rows,
      (classifyUser (p.2.map (fun e => e.event))).isSome = true →
      ∃ e ∈ p.2, e.event = "Email Opened" ∨ e.event = "Clicked Link" ∨
        e.event = "Submitted Data") := by
  refine ⟨?_, ?_, ?_⟩
  · intro evs
    by_cases hS : "Submitted Data" ∈ evs <;>
      by_cases hC : "Clicked Link" ∈ evs <;>
      by_cases hO : "Email Opened" ∈ evs <;>
      simp [classifyUser, hS, hC, hO]
  · unfold stageCounts
    exact (stageCounts_go (buildUsers geo rows) 0 0 0).trans (by simp)
  · intro p _ hsome
    by_cases hS : "Submitted Data" ∈ p.2.map (fun e => e.event)
    · rcases List.mem_map.mp hS with ⟨e, he, hev⟩
      exact ⟨e, he, Or.inr (Or.inr hev)⟩
    · by_cases hC : "Clicked Link" ∈ p.2.map (fun e => e.event)
      · rcases List.mem_map.mp hC with ⟨e, he, hev⟩
        exact ⟨e, he, Or.inr (Or.inl hev)⟩
      · by_cases hO : "Email Opened" ∈ p.2.map (fun e => e.event)
        · rcases List.mem_map.mp hO with ⟨e, he, hev⟩
          exact ⟨e, he, Or.inl hev⟩
        · simp [classifyUser, hS, hC, hO] at hsome

/-- Witness for C4: on the sent-then-clicked input, the single recipient is
in the view, classifies as clicked, and has a qualifying event. -/
theorem funnel_stage_classification_witness :
    ("u1", [uev1, uev2]) ∈ buildUsers geoTest rows4 ∧
    classifyUser ([uev1, uev2].map (fun e => e.event)) = some Stage.clicked ∧
    ∃ e ∈ [uev1, uev2],
      e.event = "Email Opened" ∨ e.event = "Clicked Link" ∨
        e.event = "Submitted Data" := by
  have hb : buildUsers geoTest rows4 = [("u1", [uev1, uev2])] := rfl
  refine ⟨by rw [hb]; exact List.mem_singleton_self _, rfl, ?_⟩
  exact (funnel_stage_classification geoTest rows4).2.2 ("u1", [uev1, uev2])
    (by rw [hb]; exact List.mem_singleton_self _) rfl

/-! ### Association-list infrastructure for the dossier map -/

theorem alistGet_eq_none_of_not_key {α : Type} (m : List (String × α))
    (k : String) (h : k ∉ m.map Prod.fst) : alistGet m k = none := by
  induction m with
  | nil => rfl
  | cons p t ih =>
    obtain ⟨k0, v⟩ := p
    simp only [List.map_cons, List.mem_cons] at h
    push_neg at h
    simp only [alistGet]
    rw [if_neg (fun he => h.1 he.symm)]
    exact ih h.2

theorem alistGet_mem {α : Type} (m : List (String × α)) (k : String) (v : α)
    (h : alistGet m k = some v) : (k, v) ∈ m := by
  induction m with
  | nil => simp [alistGet] at h
  | cons p t ih =>
    obtain ⟨k0, w⟩ := p
    by_cases h0 : k0 = k
    · subst h0
      have hh : alistGet ((k0, w) :: t) k0 = some w := by simp [alistGet]
      rw [hh, Option.some_inj] at h
      subst h
      exact List.mem_cons_self _ _
    · simp only [alistGet, if_neg h0] at h
      exact List.mem_cons_of_mem _ (ih h)

theorem alistGet_of_mem_nodup (m : IpMap) (p : String × Dossier)
    (hm : NodupKeys m) (hp : p ∈ m) : alistGet m p.1 = some p.2 := by
  induction m with
  | nil => simp at hp
  | cons q t ih =>
    rcases List.mem_cons.mp hp with h | h
    · subst h
      obtain ⟨k0, d⟩ := p
      simp [alistGet]
    · obtain ⟨k0, d⟩ := q
      have hk : k0 ≠ p.1 := by
        intro he
        have : p.1 ∈ keysOf t := List.mem_map_of_mem Prod.fst h
        rw [← he] at this
        exact (List.nodup_cons.mp hm).1 this
      simp only [alistGet, if_neg hk]
      exact ih (List.nodup_cons.mp hm).2 h

theorem alistGet_append {α : Type} (m n : List (String × α)) (k : String) :
    alistGet (m ++ n) k = ((alistGet m k).orElse (fun _ => alistGet n k)) := by
  induction m with
  | nil => simp [alistGet]
  | cons p t ih =>
    obtain ⟨k0, v⟩ := p
    by_cases h0 : k0 = k
    · simp [alistGet, h0]
    · simp [alistGet, h0, ih]

theorem alistGet_map_val {α : Type} (m : List (String × α)) (F : α → α)
    (k : String) :
    alistGet (m.map (fun p => (p.1, F p.2))) k = (alistGet m k).map F := by
  induction m with
  | nil => rfl
  | cons p t ih =>
    obtain ⟨k0, v⟩ := p
    by_cases h0 : k0 = k
    · simp [alistGet, h0]
    · simp [alistGet, h0, ih]

theorem alistGet_update (m : IpMap) (ip : String) (F : Dossier → Dossier)
    (k : String) :
    alistGet (m.map (fun p => if p.1 = ip then (p.1, F p.2) else p)) k
      = if k = ip then (alistGet m k).map F else alistGet m k := by
  induction m with
  | nil => by_cases hk : k = ip <;> simp [alistGet, hk]
  | cons p t ih =>
    obtain ⟨k0, d⟩ := p
    simp only [List.map_cons]
    have hhead : (if ((k0, d) : String × Dossier).1 = ip then (k0, F d) else (k0, d))
        = if k0 = ip then (k0, F d) else (k0, d) := rfl
    rw [hhead]
    by_cases h0 : k0 = ip
    · rw [if_pos h0]
      by_cases h1 : k0 = k
      · subst h1
        subst h0
        simp [alistGet]
      · have hk2 : ¬k = ip := fun he => h1 (h0.trans he.symm)
        simp only [alistGet, if_neg h1, ih, if_neg hk2]
    · rw [if_neg h0]
      by_cases h1 : k0 = k
      · subst h1
        simp [alistGet, h0]
      · simp only [alistGet, if_neg h1, ih]

theorem keysOf_map_update (m : IpMap) (ip : String) (F : Dossier → Dossier) :
    keysOf (m.map (fun p => if p.1 = ip then (p.1, F p.2) else p)) = keysOf m := by
  induction m with
  | nil => rfl
  | cons p t ih =>
    obtain ⟨k0, d⟩ := p
    simp only [List.map_cons]
    have hhead : (if ((k0, d) : String × Dossier).1 = ip then (k0, F d) else (k0, d))
        = if k0 = ip then (k0, F d) else (k0, d) := rfl
    rw [hhead]
    by_cases h0 : k0 = ip
    · rw [if_pos h0]
      simpa [keysOf] using ih
    · rw [if_neg h0]
      simpa [keysOf] using ih

theorem keysOf_append (m n : IpMap) : keysOf (m ++ n) = keysOf m ++ keysOf n := by
  simp [keysOf]

theorem mem_keysOf_iff (m : IpMap) (k : String) :
    k ∈ keysOf m ↔ (alistGet m k).isSome = true := by
  induction m with
  | nil => simp [keysOf, alistGet]
  | cons p t ih =>
    obtain ⟨k0, d⟩ := p
    by_cases h0 : k0 = k
    · subst h0
      simp [keysOf, alistGet]
    · have h1 : ¬k = k0 := fun he => h0 he.symm
      simp only [keysOf, List.map_cons, List.mem_cons] at ih ⊢
      rw [show alistGet ((k0, d) :: t) k = alistGet t k from by simp [alistGet, h0]]
      rw [← ih]
      simp [h1]

/-! ### Per-dossier update facts -/

theorem uaAddO_fields (ua : Option String) (d : Dossier) :
    (uaAddO ua d).ip = d.ip ∧ (uaAddO ua d).location = d.location ∧
    (uaAddO ua d).isp = d.isp ∧
    (uaAddO ua d).credential_rows = d.credential_rows ∧
    (uaAddO ua d).events = d.events := by
  cases ua with
  | none => exact ⟨rfl, rfl, rfl, rfl, rfl⟩
  | some u =>
    by_cases hu : u = ""
    · simp [uaAddO, hu]
    · simp [uaAddO, hu, uaAdd]

theorem evAdd_fields (r : Row) (ip : String) (d : Dossier) :
    (evAdd r ip d).ip = d.ip ∧ (evAdd r ip d).location = d.location ∧
    (evAdd r ip d).isp = d.isp ∧
    (evAdd r ip d).credential_rows = d.credential_rows ∧
    (evAdd r ip d).user_agents = d.user_agents ∧
    (evAdd r ip d).events = d.events ++ [mkIpEvent d r ip] :=
  ⟨rfl, rfl, rfl, rfl, rfl, rfl⟩

theorem mem_uaAdd_self (u : String) (d : Dossier) :
    u ∈ (uaAdd u d).user_agents := by
  unfold uaAdd
  by_cases h : u ∈ d.user_agents <;> simp [h]

theorem mem_uaAdd_mono (u w : String) (d : Dossier) (h : w ∈ d.user_agents) :
    w ∈ (uaAdd u d).user_agents := by
  unfold uaAdd
  by_cases hh : u ∈ d.user_agents <;> simp [hh, h]

theorem mem_uaAddO_mono (ua : Option String) (w : String) (d : Dossier)
    (h : w ∈ d.user_agents) : w ∈ (uaAddO ua d).user_agents := by
  cases ua with
  | none => exact h
  | some u =>
    by_cases hu : u = ""
    · simpa [uaAddO, hu] using h
    · simp only [uaAddO, if_neg hu]
      exact mem_uaAdd_mono u w d h

theorem uaAdd_eq_self (u : String) (d : Dossier) (h : u ∈ d.user_agents) :
    uaAdd u d = d := by
  unfold uaAdd
  rw [if_pos h]

/-! ### Map-level effect of the loop operations -/

theorem alistGet_addUA (m : IpMap) (ip : String) (ua : Option String)
    (k : String) :
    alistGet (addUA m ip ua) k
      = if k = ip then (alistGet m k).map (uaAddO ua) else alistGet m k := by
  cases ua with
  | none =>
    simp only [addUA]
    by_cases hk : k = ip
    · cases h : alistGet m k <;> simp [hk, h, uaAddO]
    · simp [hk]
  | some u =>
    by_cases hu : u = ""
    · simp only [addUA, if_pos hu]
      by_cases hk : k = ip
      · cases h : alistGet m k <;> simp [hk, h, uaAddO, hu]
      · simp [hk]
    · simp only [addUA, if_neg hu]
      rw [alistGet_update]
      by_cases hk : k = ip
      · cases h : alistGet m k <;> simp [hk, h, uaAddO, hu]
      · simp [hk]

theorem keysOf_addUA (m : IpMap) (ip : String) (ua : Option String) :
    keysOf (addUA m ip ua) = keysOf m := by
  cases ua with
  | none => rfl
  | some u =>
    by_cases hu : u = ""
    · simp [addUA, hu]
    · simp only [addUA, if_neg hu]
      exact keysOf_map_update m ip (uaAdd u)

theorem alistGet_pushIpEvent (m : IpMap) (ip : String) (r : Row) (k : String) :
    alistGet (pushIpEvent m ip r) k
      = if k = ip then (alistGet m k).map (evAdd r ip) else alistGet m k :=
  alistGet_update m ip (evAdd r ip) k

theorem keysOf_pushIpEvent (m : IpMap) (ip : String) (r : Row) :
    keysOf (pushIpEvent m ip r) = keysOf m :=
  keysOf_map_update m ip (evAdd r ip)

theorem ensure_of_isSome (g : String → Geo) (c : String → List CredRow)
    (m : IpMap) (ip : String) (h : (alistGet m ip).isSome = true) :
    ensureDossier g c m ip = m := by
  unfold ensureDossier
  rw [if_pos h]

theorem ensure_of_none (g : String → Geo) (c : String → List CredRow)
    (m : IpMap) (ip : String) (h : alistGet m ip = none) :
    ensureDossier g c m ip = m ++ [(ip, mkDossier g c ip)] := by
  unfold ensureDossier
  rw [if_neg (by simp [h])]

theorem alistGet_ensure (g : String → Geo) (c : String → List CredRow)
    (m : IpMap) (ip k : String) :
    alistGet (ensureDossier g c m ip) k
      = if k = ip then some ((alistGet m ip).getD (mkDossier g c ip))
        else alistGet m k := by
  cases h : alistGet m ip with
  | some d =>
    rw [ensure_of_isSome g c m ip (by simp [h])]
    by_cases hk : k = ip
    · subst hk
      simp [h]
    · simp [hk]
  | none =>
    rw [ensure_of_none g c m ip h, alistGet_append]
    by_cases hk : k = ip
    · subst hk
      simp [h, alistGet]
    · have hik : ¬ip = k := fun he => hk he.symm
      cases h2 : alistGet m k <;> simp [hk, hik, h2, alistGet]

/-! ### Step-level characterizations -/

theorem step1_elig_none (g : String → Geo) (c : String → List CredRow)
    (m : IpMap) (r : Row) (he : eligIp r = none) : step1 g c m r = m := by
  unfold step1
  rw [he]

theorem step1_elig_some (g : String → Geo) (c : String → List CredRow)
    (m : IpMap) (r : Row) (ip : String) (he : eligIp r = some ip) :
    step1 g c m r = addUA (ensureDossier g c m ip) ip r.ua := by
  unfold step1
  rw [he]

theorem step2_elig_none (g : String → Geo) (c : String → List CredRow)
    (m : IpMap) (r : Row) (he : eligIp r = none) : step2 g c m r = m := by
  unfold step2
  rw [he]

theorem step2_elig_some (g : String → Geo) (c : String → List CredRow)
    (m : IpMap) (r : Row) (ip : String) (he : eligIp r = some ip) :
    step2 g c m r = pushIpEvent (addUA (ensureDossier g c m ip) ip r.ua) ip r := by
  unfold step2
  rw [he]

theorem alistGet_step1_some (g : String → Geo) (c : String → List CredRow)
    (m : IpMap) (r : Row) (ip k : String) (he : eligIp r = some ip) :
    alistGet (step1 g c m r) k
      = if k = ip then
          some (uaAddO r.ua ((alistGet m ip).getD (mkDossier g c ip)))
        else alistGet m k := by
  rw [step1_elig_some g c m r ip he, alistGet_addUA, alistGet_ensure]
  by_cases hk : k = ip
  · simp [hk]
  · simp [hk]

theorem alistGet_step2_some (g : String → Geo) (c : String → List CredRow)
    (m : IpMap) (r : Row) (ip k : String) (he : eligIp r = some ip) :
    alistGet (step2 g c m r) k
      = if k = ip then
          some (evAdd r ip (uaAddO r.ua ((alistGet m ip).getD (mkDossier g c ip))))
        else alistGet m k := by
  rw [step2_elig_some g c m r ip he, alistGet_pushIpEvent, alistGet_addUA,
    alistGet_ensure]
  by_cases hk : k = ip
  · simp [hk]
  · simp [hk]

theorem keysOf_step1_some (g : String → Geo) (c : String → List CredRow)
    (m : IpMap) (r : Row) (ip : String) (he : eligIp r = some ip) :
    keysOf (step1 g c m r)
      = if (alistGet m ip).isSome then keysOf m else keysOf m ++ [ip] := by
  rw [step1_elig_some g c m r ip he, keysOf_addUA]
  cases h : alistGet m ip with
  | some d =>
    rw [ensure_of_isSome g c m ip (by simp [h])]
    simp [h]
  | none =>
    rw [ensure_of_none g c m ip h, keysOf_append]
    simp [h, keysOf]

theorem keysOf_step2_some (g : String → Geo) (c : String → List CredRow)
    (m : IpMap) (r : Row) (ip : String) (he : eligIp r = some ip) :
    keysOf (step2 g c m r)
      = if (alistGet m ip).isSome then keysOf m else keysOf m ++ [ip] := by
  rw [step2_elig_some g c m r ip he, keysOf_pushIpEvent, keysOf_addUA]
  cases h : alistGet m ip with
  | some d =>
    rw [ensure_of_isSome g c m ip (by simp [h])]
    simp [h]
  | none =>
    rw [ensure_of_none g c m ip h, keysOf_append]
    simp [h, keysOf]

/-! ### Invariants of the dossier map -/

theorem nodupKeys_step1 (g : String → Geo) (c : String → List CredRow)
    (m : IpMap) (r : Row) (h : NodupKeys m) : NodupKeys (step1 g c m r) := by
  cases he : eligIp r with
  | none => rw [step1_elig_none g c m r he]; exact h
  | some ip =>
    rw [NodupKeys, keysOf_step1_some g c m r ip he]
    cases hs : (alistGet m ip).isSome with
    | true => simpa using h
    | false =>
      rw [if_neg (by simp)]
      have h2 : (keysOf m).Nodup := h
      have hnm : ip ∉ keysOf m := by
        rw [mem_keysOf_iff]
        simp [hs]
      simp [List.nodup_append, h2, hnm]

theorem nodupKeys_step2 (g : String → Geo) (c : String → List CredRow)
    (m : IpMap) (r : Row) (h : NodupKeys m) : NodupKeys (step2 g c m r) := by
  cases he : eligIp r with
  | none => rw [step2_elig_none g c m r he]; exact h
  | some ip =>
    rw [NodupKeys, keysOf_step2_some g c m r ip he]
    cases hs : (alistGet m ip).isSome with
    | true => simpa using h
    | false =>
      rw [if_neg (by simp)]
      have h2 : (keysOf m).Nodup := h
      have hnm : ip ∉ keysOf m := by
        rw [mem_keysOf_iff]
        simp [hs]
      simp [List.nodup_append, h2, hnm]

theorem goodMap_addUA (g : String → Geo) (c : String → List CredRow)
    (m : IpMap) (ip : String) (ua : Option String) (h : GoodMap g c m) :
    GoodMap g c (addUA m ip ua) := by
  cases ua with
  | none => exact h
  | some u =>
    by_cases hu : u = ""
    · simpa [addUA, hu] using h
    · simp only [addUA, if_neg hu]
      intro p hp
      rcases List.mem_map.mp hp with ⟨q, hq, hpq⟩
      have hf := h q hq
      by_cases hq1 : q.1 = ip
      · rw [← hpq, if_pos hq1]
        exact ⟨hf.1, hf.2.1, hf.2.2.1, hf.2.2.2⟩
      · rw [← hpq, if_neg hq1]
        exact hf

theorem goodMap_pushIpEvent (g : String → Geo) (c : String → List CredRow)
    (m : IpMap) (ip : String) (r : Row) (h : GoodMap g c m) :
    GoodMap g c (pushIpEvent m ip r) := by
  intro p hp
  rcases List.mem_map.mp hp with ⟨q, hq, hpq⟩
  have hf := h q hq
  by_cases hq1 : q.1 = ip
  · rw [← hpq, if_pos hq1]
    exact ⟨hf.1, hf.2.1, hf.2.2.1, hf.2.2.2⟩
  · rw [← hpq, if_neg hq1]
    exact hf

theorem goodMap_ensure (g : String → Geo) (c : String → List CredRow)
    (m : IpMap) (ip : String) (h : GoodMap g c m) :
    GoodMap g c (ensureDossier g c m ip) := by
  cases hs : alistGet m ip with
  | some d => rw [ensure_of_isSome g c m ip (by simp [hs])]; exact h
  | none =>
    rw [ensure_of_none g c m ip hs]
    intro p hp
    rcases List.mem_append.mp hp with hp | hp
    · exact h p hp
    · have hps : p = (ip, mkDossier g c ip) := List.mem_singleton.mp hp
      subst hps
      exact ⟨rfl, rfl, rfl, rfl⟩

theorem goodMap_step1 (g : String → Geo) (c : String → List CredRow)
    (m : IpMap) (r : Row) (h : GoodMap g c m) : GoodMap g c (step1 g c m r) := by
  cases he : eligIp r with
  | none => rw [step1_elig_none g c m r he]; exact h
  | some ip =>
    rw [step1_elig_some g c m r ip he]
    exact goodMap_addUA g c _ ip r.ua (goodMap_ensure g c m ip h)

theorem goodMap_step2 (g : String → Geo) (c : String → List CredRow)
    (m : IpMap) (r : Row) (h : GoodMap g c m) : GoodMap g c (step2 g c m r) := by
  cases he : eligIp r with
  | none => rw [step2_elig_none g c m r he]; exact h
  | some ip =>
    rw [step2_elig_some g c m r ip he]
    exact goodMap_pushIpEvent g c _ ip r
      (goodMap_addUA g c _ ip r.ua (goodMap_ensure g c m ip h))

theorem goodMap_foldl_step1 (g : String → Geo) (c : String → List CredRow)
    (rows : List Row) : ∀ m, GoodMap g c m →
    GoodMap g c (rows.foldl (step1 g c) m) := by
  induction rows with
  | nil => intro m h; exact h
  | cons r t ih =>
    intro m h
    exact ih (step1 g c m r) (goodMap_step1 g c m r h)

theorem goodMap_foldl_step2 (g : String → Geo) (c : String → List CredRow)
    (rows : List Row) : ∀ m, GoodMap g c m →
    GoodMap g c (rows.foldl (step2 g c) m) := by
  induction rows with
  | nil => intro m h; exact h
  | cons r t ih =>
    intro m h
    exact ih (step2 g c m r) (goodMap_step2 g c m r h)

theorem nodupKeys_foldl_step1 (g : String → Geo) (c : String → List CredRow)
    (rows : List Row) : ∀ m, NodupKeys m →
    NodupKeys (rows.foldl (step1 g c) m) := by
  induction rows with
  | nil => intro m h; exact h
  | cons r t ih =>
    intro m h
    exact ih (step1 g c m r) (nodupKeys_step1 g c m r h)

theorem nodupKeys_foldl_step2 (g : String → Geo) (c : String → List CredRow)
    (rows : List Row) : ∀ m, NodupKeys m →
    NodupKeys (rows.foldl (step2 g c) m) := by
  induction rows with
  | nil => intro m h; exact h
  | cons r t ih =>
    intro m h
    exact ih (step2 g c m r) (nodupKeys_step2 g c m r h)

/-! ### The two loops agree modulo timelines -/

theorem alistGet_eraseEvents (m : IpMap) (k : String) :
    alistGet (eraseEvents m) k = (alistGet m k).map eraseD :=
  alistGet_map_val m eraseD k

theorem eraseEvents_addUA (m : IpMap) (ip : String) (ua : Option String) :
    eraseEvents (addUA m ip ua) = addUA (eraseEvents m) ip ua := by
  cases ua with
  | none => rfl
  | some u =>
    by_cases hu : u = ""
    · simp [addUA, hu]
    · simp only [addUA, if_neg hu, eraseEvents, List.map_map]
      apply List.map_congr_left
      intro p _
      by_cases hp : p.1 = ip
      · simp [Function.comp, hp, eraseD, uaAdd]
      · simp [Function.comp, hp]

theorem eraseEvents_pushIpEvent (m : IpMap) (ip : String) (r : Row) :
    eraseEvents (pushIpEvent m ip r) = eraseEvents m := by
  simp only [pushIpEvent, eraseEvents, List.map_map]
  apply List.map_congr_left
  intro p _
  by_cases hp : p.1 = ip
  · simp [Function.comp, hp, eraseD, evAdd]
  · simp [Function.comp, hp]

theorem eraseEvents_ensure (g : String → Geo) (c : String → List CredRow)
    (m : IpMap) (ip : String) :
    eraseEvents (ensureDossier g c m ip) = ensureDossier g c (eraseEvents m) ip := by
  cases hs : alistGet m ip with
  | some d =>
    rw [ensure_of_isSome g c m ip (by simp [hs]),
      ensure_of_isSome g c (eraseEvents m) ip
        (by rw [alistGet_eraseEvents, hs]; rfl)]
  | none =>
    rw [ensure_of_none g c m ip hs,
      ensure_of_none g c (eraseEvents m) ip (by rw [alistGet_eraseEvents, hs]; rfl)]
    simp only [eraseEvents, List.map_append, List.map_cons, List.map_nil]
    rfl

theorem eraseEvents_step1 (g : String → Geo) (c : String → List CredRow)
    (m : IpMap) (r : Row) :
    eraseEvents (step1 g c m r) = step1 g c (eraseEvents m) r := by
  cases he : eligIp r with
  | none => rw [step1_elig_none g c m r he, step1_elig_none g c (eraseEvents m) r he]
  | some ip =>
    rw [step1_elig_some g c m r ip he, step1_elig_some g c (eraseEvents m) r ip he,
      eraseEvents_addUA, eraseEvents_ensure]

theorem eraseEvents_step2 (g : String → Geo) (c : String → List CredRow)
    (m : IpMap) (r : Row) :
    eraseEvents (step2 g c m r) = step1 g c (eraseEvents m) r := by
  cases he : eligIp r with
  | none => rw [step2_elig_none g c m r he, step1_elig_none g c (eraseEvents m) r he]
  | some ip =>
    rw [step2_elig_some g c m r ip he, step1_elig_some g c (eraseEvents m) r ip he,
      eraseEvents_pushIpEvent, eraseEvents_addUA, eraseEvents_ensure]

theorem eraseEvents_foldl_step1 (g : String → Geo) (c : String → List CredRow)
    (rows : List Row) : ∀ m,
    eraseEvents (rows.foldl (step1 g c) m) = rows.foldl (step1 g c) (eraseEvents m) := by
  induction rows with
  | nil => intro m; rfl
  | cons r t ih =>
    intro m
    simp only [List.foldl_cons]
    rw [ih (step1 g c m r), eraseEvents_step1]

theorem eraseEvents_foldl_step2 (g : String → Geo) (c : String → List CredRow)
    (rows : List Row) : ∀ m,
    eraseEvents (rows.foldl (step2 g c) m) = rows.foldl (step1 g c) (eraseEvents m) := by
  induction rows with
  | nil => intro m; rfl
  | cons r t ih =>
    intro m
    simp only [List.foldl_cons]
    rw [ih (step2 g c m r), eraseEvents_step2]

/-! ### Timelines accumulate exactly the eligible rows in order -/

theorem eventsAt_step2 (g : String → Geo) (c : String → List CredRow)
    (m : IpMap) (r : Row) (k : String) (hg : GoodMap g c m) :
    eventsAt (step2 g c m r) k
      = eventsAt m k ++ (if eligIp r = some k then [mkIpEventC g k r] else []) := by
  cases he : eligIp r with
  | none => rw [step2_elig_none g c m r he]; simp [he]
  | some ip =>
    rw [eventsAt, alistGet_step2_some g c m r ip k he]
    by_cases hk : k = ip
    · subst hk
      simp only [eq_self_iff_true, if_true]
      cases h : alistGet m k with
      | some d =>
        have hf := hg (k, d) (alistGet_mem m k d h)
        have hfl : (uaAddO r.ua d).location = (g k).1 := by
          rw [(uaAddO_fields r.ua d).2.1]
          exact hf.2.1
        have hfi : (uaAddO r.ua d).isp = (g k).2 := by
          rw [(uaAddO_fields r.ua d).2.2.1]
          exact hf.2.2.1
        have hfe : (uaAddO r.ua d).events = d.events :=
          (uaAddO_fields r.ua d).2.2.2.2
        simp [evAdd, eventsAt, h, hfe, mkIpEvent, mkIpEventC, hfl, hfi]
      | none =>
        have hfl : (uaAddO r.ua (mkDossier g c k)).location = (g k).1 :=
          (uaAddO_fields r.ua (mkDossier g c k)).2.1
        have hfi : (uaAddO r.ua (mkDossier g c k)).isp = (g k).2 :=
          (uaAddO_fields r.ua (mkDossier g c k)).2.2.1
        have hfe : (uaAddO r.ua (mkDossier g c k)).events = [] :=
          (uaAddO_fields r.ua (mkDossier g c k)).2.2.2.2
        simp [evAdd, eventsAt, h, hfe, mkIpEvent, mkIpEventC, hfl, hfi]
    · rw [if_neg hk, if_neg (fun hh => hk (Option.some_inj.mp hh).symm)]
      simp [eventsAt]

theorem eventsAt_foldl_step2 (g : String → Geo) (c : String → List CredRow)
    (rows : List Row) : ∀ m, GoodMap g c m → ∀ k,
    eventsAt (rows.foldl (step2 g c) m) k
      = eventsAt m k ++ (eligRows rows k).map (mkIpEventC g k) := by
  induction rows with
  | nil => intro m _ k; simp [eligRows]
  | cons r t ih =>
    intro m hg k
    simp only [List.foldl_cons]
    rw [ih (step2 g c m r) (goodMap_step2 g c m r hg) k,
      eventsAt_step2 g c m r k hg]
    by_cases he : eligIp r = some k
    · simp [eligRows, List.filter_cons, he, List.append_assoc]
    · simp [eligRows, List.filter_cons, he]

/-! ### A second run of the first loop changes nothing -/

theorem isSome_step1_mono (g : String → Geo) (c : String → List CredRow)
    (m : IpMap) (r : Row) (k : String) (h : (alistGet m k).isSome = true) :
    (alistGet (step1 g c m r) k).isSome = true := by
  cases he : eligIp r with
  | none => rw [step1_elig_none g c m r he]; exact h
  | some ip =>
    rw [alistGet_step1_some g c m r ip k he]
    by_cases hk : k = ip
    · simp [hk]
    · simp [hk, h]

theorem mem_uasAt_step1_mono (g : String → Geo) (c : String → List CredRow)
    (m : IpMap) (r : Row) (k : String) (u : String) (h : u ∈ uasAt m k) :
    u ∈ uasAt (step1 g c m r) k := by
  cases he : eligIp r with
  | none => rw [step1_elig_none g c m r he]; exact h
  | some ip =>
    rw [uasAt, alistGet_step1_some g c m r ip k he]
    by_cases hk : k = ip
    · subst hk
      cases hm : alistGet m k with
      | some d =>
        rw [uasAt, hm] at h
        simp only [Option.map_some', Option.getD_some] at h
        simp only [if_pos rfl, Option.map_some', Option.getD_some,
          Option.getD_some]
        exact mem_uaAddO_mono r.ua u d (by simpa using h)
      | none =>
        rw [uasAt, hm] at h
        simp at h
    · rw [if_neg hk]
      exact h

theorem isSome_foldl_step1_mono (g : String → Geo) (c : String → List CredRow)
    (rows : List Row) : ∀ (m : IpMap) (k : String),
    (alistGet m k).isSome = true →
    (alistGet (rows.foldl (step1 g c) m) k).isSome = true := by
  induction rows with
  | nil => intro m k h; exact h
  | cons r t ih =>
    intro m k h
    exact ih (step1 g c m r) k (isSome_step1_mono g c m r k h)

theorem mem_uasAt_foldl_step1_mono (g : String → Geo)
    (c : String → List CredRow) (rows : List Row) :
    ∀ (m : IpMap) (k u : String), u ∈ uasAt m k →
    u ∈ uasAt (rows.foldl (step1 g c) m) k := by
  induction rows with
  | nil => intro m k u h; exact h
  | cons r t ih =>
    intro m k u h
    exact ih (step1 g c m r) k u (mem_uasAt_step1_mono g c m r k u h)

theorem sat_foldl_step1 (g : String → Geo) (c : String → List CredRow)
    (rows : List Row) : ∀ (m : IpMap), ∀ r ∈ rows, ∀ ip : String,
    eligIp r = some ip →
    (alistGet (rows.foldl (step1 g c) m) ip).isSome = true ∧
    (∀ u, r.ua = some u → ¬u = "" →
      u ∈ uasAt (rows.foldl (step1 g c) m) ip) := by
  induction rows with
  | nil => intro m r hr; simp at hr
  | cons r0 t ih =>
    intro m r hr ip he
    simp only [List.foldl_cons]
    rcases List.mem_cons.mp hr with hr0 | hrt
    · subst hr0
      constructor
      · apply isSome_foldl_step1_mono
        rw [alistGet_step1_some g c m r ip ip he]
        simp
      · intro u hu hu2
        apply mem_uasAt_foldl_step1_mono
        rw [uasAt, alistGet_step1_some g c m r ip ip he]
        simp only [if_pos rfl, Option.map_some', Option.getD_some]
        rw [hu]
        simp only [uaAddO, if_neg hu2]
        exact mem_uaAdd_self u _
    · exact ih (step1 g c m r0) r hrt ip he

theorem step1_fixed (g : String → Geo) (c : String → List CredRow)
    (m : IpMap) (r : Row) (ip : String) (hn : NodupKeys m)
    (he : eligIp r = some ip) (hs : (alistGet m ip).isSome = true)
    (hu : ∀ u, r.ua = some u → ¬u = "" → u ∈ uasAt m ip) :
    step1 g c m r = m := by
  rw [step1_elig_some g c m r ip he, ensure_of_isSome g c m ip hs]
  cases hua : r.ua with
  | none => rfl
  | some u =>
    by_cases hu2 : u = ""
    · simp [addUA, hu2]
    · simp only [addUA, if_neg hu2]
      have hmem : u ∈ uasAt m ip := hu u hua hu2
      have hid : ∀ p ∈ m, (if p.1 = ip then (p.1, uaAdd u p.2) else p) = p := by
        intro p hp
        by_cases hp1 : p.1 = ip
        · rw [if_pos hp1]
          have hget : alistGet m ip = some p.2 := by
            rw [← hp1]
            exact alistGet_of_mem_nodup m p hn hp
          have hup : u ∈ p.2.user_agents := by
            rw [uasAt, hget] at hmem
            simpa using hmem
          rw [uaAdd_eq_self u p.2 hup]
        · rw [if_neg hp1]
      rw [List.map_congr_left hid]
      simp

theorem foldl_step1_fixed (g : String → Geo) (c : String → List CredRow)
    (rows : List Row) : ∀ m : IpMap, NodupKeys m →
    (∀ r ∈ rows, ∀ ip : String, eligIp r = some ip →
      (alistGet m ip).isSome = true ∧
      (∀ u, r.ua = some u → ¬u = "" → u ∈ uasAt m ip)) →
    rows.foldl (step1 g c) m = m := by
  induction rows with
  | nil => intro m _ _; rfl
  | cons r t ih =>
    intro m hn hsat
    simp only [List.foldl_cons]
    have hfix : step1 g c m r = m := by
      cases he : eligIp r with
      | none => exact step1_elig_none g c m r he
      | some ip =>
        have h1 := hsat r (List.mem_cons_self r t) ip he
        exact step1_fixed g c m r ip hn he h1.1 h1.2
    rw [hfix]
    exact ih m hn (fun r2 hr2 => hsat r2 (List.mem_cons_of_mem r hr2))

/-! ### Reconstruction: a map is determined by its erased form and
timelines -/

theorem keysOf_eraseEvents (m : IpMap) : keysOf (eraseEvents m) = keysOf m := by
  simp only [eraseEvents, keysOf, List.map_map]
  apply List.map_congr_left
  intro p _
  rfl

theorem ipMap_ext (m1 : IpMap) : ∀ m2 : IpMap, NodupKeys m1 →
    eraseEvents m1 = eraseEvents m2 →
    (∀ k, eventsAt m1 k = eventsAt m2 k) → m1 = m2 := by
  induction m1 with
  | nil =>
    intro m2 _ he _
    cases m2 with
    | nil => rfl
    | cons q u => exact absurd he (by simp [eraseEvents])
  | cons p t ih =>
    intro m2 hn he hev
    cases m2 with
    | nil => exact absurd he (by simp [eraseEvents])
    | cons q u =>
      obtain ⟨pk, pd⟩ := p
      obtain ⟨qk, qd⟩ := q
      simp only [eraseEvents, List.map_cons, List.cons.injEq, Prod.mk.injEq] at he
      obtain ⟨⟨hk, hd0⟩, htail⟩ := he
      subst hk
      have hev0 := hev pk
      rw [eventsAt, eventsAt,
        show alistGet ((pk, pd) :: t) pk = some pd from by simp [alistGet],
        show alistGet ((pk, qd) :: u) pk = some qd from by simp [alistGet]] at hev0
      simp only [Option.map_some', Option.getD_some] at hev0
      obtain ⟨pa, pb, pc, pu, pe, pcr⟩ := pd
      obtain ⟨qa, qb, qc, qu, qe, qcr⟩ := qd
      simp only [eraseD, Dossier.mk.injEq, and_true] at hd0
      simp only at hev0
      obtain ⟨h1, h2, h3, h4, h5⟩ := hd0
      obtain ⟨-, h6⟩ := h5
      subst h1
      subst h2
      subst h3
      subst h4
      subst h6
      subst hev0
      have hnt : NodupKeys t := (List.nodup_cons.mp hn).2
      have hkeys : keysOf t = keysOf u := by
        have hkk := congrArg (fun l : IpMap => l.map Prod.fst) htail
        simp only [List.map_map] at hkk
        have e1 : keysOf (eraseEvents t) = keysOf (eraseEvents u) := by
          simpa [eraseEvents, keysOf, List.map_map] using hkk
        rwa [keysOf_eraseEvents, keysOf_eraseEvents] at e1
      have hevt : ∀ k, eventsAt t k = eventsAt u k := by
        intro k
        by_cases hk2 : pk = k
        · subst hk2
          have hpk : pk ∉ keysOf t := by
            simpa [keysOf] using (List.nodup_cons.mp hn).1
          have hpku : pk ∉ keysOf u := by
            rw [← hkeys]
            exact hpk
          rw [eventsAt, eventsAt,
            alistGet_eq_none_of_not_key t pk (by simpa [keysOf] using hpk),
            alistGet_eq_none_of_not_key u pk (by simpa [keysOf] using hpku)]
        · have h6 := hev k
          have hne : ¬pk = k := hk2
          rw [eventsAt, eventsAt,
            show alistGet ((pk, _) :: t) k = alistGet t k from by
              simp [alistGet, hne],
            show alistGet ((pk, _) :: u) k = alistGet u k from by
              simp [alistGet, hne]] at h6
          rw [eventsAt, eventsAt]
          exact h6
      rw [ih u hnt htail hevt]

/-! ### Presence characterizations of the folds -/

theorem isSome_step1_iff (g : String → Geo) (c : String → List CredRow)
    (m : IpMap) (r : Row) (k : String) :
    (alistGet (step1 g c m r) k).isSome = true ↔
      (alistGet m k).isSome = true ∨ eligIp r = some k := by
  cases he : eligIp r with
  | none => rw [step1_elig_none g c m r he]; simp
  | some ip =>
    rw [alistGet_step1_some g c m r ip k he]
    by_cases hk : k = ip
    · subst hk
      simp
    · simp [hk, show ¬ip = k from fun x => hk x.symm]

theorem isSome_step2_iff (g : String → Geo) (c : String → List CredRow)
    (m : IpMap) (r : Row) (k : String) :
    (alistGet (step2 g c m r) k).isSome = true ↔
      (alistGet m k).isSome = true ∨ eligIp r = some k := by
  cases he : eligIp r with
  | none => rw [step2_elig_none g c m r he]; simp
  | some ip =>
    rw [alistGet_step2_some g c m r ip k he]
    by_cases hk : k = ip
    · subst hk
      simp
    · simp [hk, show ¬ip = k from fun x => hk x.symm]

theorem isSome_foldl_step1_iff (g : String → Geo) (c : String → List CredRow)
    (rows : List Row) : ∀ (m : IpMap) (k : String),
    (alistGet (rows.foldl (step1 g c) m) k).isSome = true ↔
      (alistGet m k).isSome = true ∨ ∃ r ∈ rows, eligIp r = some k := by
  induction rows with
  | nil => intro m k; simp
  | cons r t ih =>
    intro m k
    simp only [List.foldl_cons]
    rw [ih (step1 g c m r) k, isSome_step1_iff]
    simp only [List.mem_cons]
    constructor
    · rintro ((h | h) | ⟨r2, hr2, h⟩)
      · exact Or.inl h
      · exact Or.inr ⟨r, Or.inl rfl, h⟩
      · exact Or.inr ⟨r2, Or.inr hr2, h⟩
    · rintro (h | ⟨r2, (hr2 | hr2), h⟩)
      · exact Or.inl (Or.inl h)
      · subst hr2
        exact Or.inl (Or.inr h)
      · exact Or.inr ⟨r2, hr2, h⟩

theorem isSome_foldl_step2_iff (g : String → Geo) (c : String → List CredRow)
    (rows : List Row) : ∀ (m : IpMap) (k : String),
    (alistGet (rows.foldl (step2 g c) m) k).isSome = true ↔
      (alistGet m k).isSome = true ∨ ∃ r ∈ rows, eligIp r = some k := by
  induction rows with
  | nil => intro m k; simp
  | cons r t ih =>
    intro m k
    simp only [List.foldl_cons]
    rw [ih (step2 g c m r) k, isSome_step2_iff]
    simp only [List.mem_cons]
    constructor
    · rintro ((h | h) | ⟨r2, hr2, h⟩)
      · exact Or.inl h
      · exact Or.inr ⟨r, Or.inl rfl, h⟩
      · exact Or.inr ⟨r2, Or.inr hr2, h⟩
    · rintro (h | ⟨r2, (hr2 | hr2), h⟩)
      · exact Or.inl (Or.inl h)
      · subst hr2
        exact Or.inl (Or.inr h)
      · exact Or.inr ⟨r2, hr2, h⟩

/-- The eligibility guard admits exactly the rows carrying a non-null,
non-empty, non-private-prefixed address. -/
theorem eligIp_iff (r : Row) (ip : String) :
    eligIp r = some ip ↔
      r.ip = some ip ∧ ¬ip = "" ∧ isPrivateIp ip = false := by
  constructor
  · intro h
    cases hip : r.ip with
    | none =>
      unfold eligIp at h
      simp only [hip] at h
      exact absurd h (by simp)
    | some s =>
      unfold eligIp at h
      simp only [hip] at h
      by_cases hs : s = ""
      · rw [if_pos hs] at h
        exact absurd h (by simp)
      · rw [if_neg hs] at h
        by_cases hp : isPrivateIp s
        · rw [if_pos hp] at h
          exact absurd h (by simp)
        · rw [if_neg hp] at h
          have hsip : s = ip := Option.some_inj.mp h
          subst hsip
          exact ⟨rfl, hs, by simpa using hp⟩
  · rintro ⟨h1, h2, h3⟩
    unfold eligIp
    simp only [h1]
    rw [if_neg h2, if_neg (by simp [h3])]

/-- C9 (counterexample to the claim as stated): a row whose source address
is the empty string.  The empty string is non-null and matches no private
prefix, yet both accumulation loops skip it (Python falsy test), so the
resulting map holds no dossier at all — the dossier-key set is not exactly
the non-null non-private addresses. -/
theorem ip_activity_blank_address_counterexample :
    rowBlankIp.ip = some "" ∧ isPrivateIp "" = false ∧
    twoLoopActivity geoTest (fun _ => []) [rowBlankIp] = [] :=
  ⟨rfl, by decide, rfl⟩

/-- C9 (amended): the two near-duplicate accumulation loops are together
equal — as insertion-ordered maps — to the single linear pass whose
iteration is the second loop's body run from the empty map; the guard admits
exactly the rows with a non-null, non-empty, non-private-prefixed address;
the map holds a dossier exactly for the admitted addresses; and each
dossier's timeline lists exactly its address's admitted rows once, in
original input order, rendered with the one Geo pair resolved for that
address, which also fills the dossier's location/isp and pre-grouped
credential rows. -/
theorem ip_activity_single_pass (geo : String → Geo)
    (credMap : String → List CredRow) (rows : List Row) :
    twoLoopActivity geo credMap rows = singlePassActivity geo credMap rows ∧
    (∀ (r : Row) (ip : String), eligIp r = some ip ↔
      r.ip = some ip ∧ ¬ip = "" ∧ isPrivateIp ip = false) ∧
    (∀ ip, ip ∈ keysOf (twoLoopActivity geo credMap rows) ↔
      ∃ r ∈ rows, eligIp r = some ip) ∧
    (∀ ip d, alistGet (twoLoopActivity geo credMap rows) ip = some d →
      d.events = (eligRows rows ip).map (mkIpEventC geo ip) ∧
      d.location = (geo ip).1 ∧ d.isp = (geo ip).2 ∧
      d.credential_rows = credMap ip) := by
  have hMnodup : NodupKeys (rows.foldl (step1 geo credMap) []) :=
    nodupKeys_foldl_step1 geo credMap rows [] (by simp [NodupKeys, keysOf])
  have hMgood : GoodMap geo credMap (rows.foldl (step1 geo credMap) []) :=
    goodMap_foldl_step1 geo credMap rows [] (by intro p hp; simp at hp)
  have hMerase : eraseEvents (rows.foldl (step1 geo credMap) [])
      = rows.foldl (step1 geo credMap) [] := by
    rw [eraseEvents_foldl_step1]
    rfl
  have hMfix : rows.foldl (step1 geo credMap) (rows.foldl (step1 geo credMap) [])
      = rows.foldl (step1 geo credMap) [] :=
    foldl_step1_fixed geo credMap rows _ hMnodup
      (fun r hr ip he => sat_foldl_step1 geo credMap rows [] r hr ip he)
  have hAerase : eraseEvents (twoLoopActivity geo credMap rows)
      = rows.foldl (step1 geo credMap) [] := by
    rw [twoLoopActivity, eraseEvents_foldl_step2, hMerase, hMfix]
  have hSerase : eraseEvents (singlePassActivity geo credMap rows)
      = rows.foldl (step1 geo credMap) [] := by
    rw [singlePassActivity, eraseEvents_foldl_step2]
    rfl
  have hMev : ∀ k, eventsAt (rows.foldl (step1 geo credMap) []) k = [] := by
    intro k
    have h1 := congrArg (fun mm => alistGet mm k) hMerase
    simp only at h1
    rw [alistGet_eraseEvents] at h1
    rw [eventsAt]
    cases h2 : alistGet (rows.foldl (step1 geo credMap) []) k with
    | none => rfl
    | some d =>
      rw [h2] at h1
      have h3 : eraseD d = d := by simpa using h1
      have h4 : d.events = [] := by
        have h5 := congrArg Dossier.events h3
        simpa [eraseD] using h5
      simp [h4]
  have hAev : ∀ k, eventsAt (twoLoopActivity geo credMap rows) k
      = (eligRows rows k).map (mkIpEventC geo k) := by
    intro k
    rw [twoLoopActivity, eventsAt_foldl_step2 geo credMap rows _ hMgood k,
      hMev k]
    simp
  have hSev : ∀ k, eventsAt (singlePassActivity geo credMap rows) k
      = (eligRows rows k).map (mkIpEventC geo k) := by
    intro k
    rw [singlePassActivity,
      eventsAt_foldl_step2 geo credMap rows [] (by intro p hp; simp at hp) k]
    simp [eventsAt, alistGet]
  have hAnodup : NodupKeys (twoLoopActivity geo credMap rows) := by
    rw [twoLoopActivity]
    exact nodupKeys_foldl_step2 geo credMap rows _ hMnodup
  have hEq : twoLoopActivity geo credMap rows = singlePassActivity geo credMap rows :=
    ipMap_ext _ _ hAnodup (hAerase.trans hSerase.symm)
      (fun k => (hAev k).trans (hSev k).symm)
  refine ⟨hEq, eligIp_iff, ?_, ?_⟩
  · intro ip
    rw [mem_keysOf_iff, twoLoopActivity, isSome_foldl_step2_iff,
      isSome_foldl_step1_iff]
    simp only [alistGet, Option.isSome_none, Bool.false_eq_true, false_or]
    tauto
  · intro ip d hget
    have hev := hAev ip
    rw [eventsAt, hget] at hev
    simp only [Option.map_some', Option.getD_some] at hev
    have hgood : GoodMap geo credMap (twoLoopActivity geo credMap rows) := by
      rw [twoLoopActivity]
      exact goodMap_foldl_step2 geo credMap rows _ hMgood
    have hf := hgood (ip, d) (alistGet_mem _ ip d hget)
    exact ⟨hev, hf.2.1, hf.2.2.1, hf.2.2.2⟩

/-- Witness for C9 amended at a concrete two-row input from one public
address: the two strategies agree, and the stored dossier lists both events
in input order with the resolved Geo pair. -/
theorem ip_activity_single_pass_witness :
    twoLoopActivity geoTest (fun _ => []) rows9
      = singlePassActivity geoTest (fun _ => []) rows9 ∧
    dossier9.events = (eligRows rows9 "9.9.9.9").map (mkIpEventC geoTest "9.9.9.9") ∧
    dossier9.location = (geoTest "9.9.9.9").1 := by
  have h := ip_activity_single_pass geoTest (fun _ => []) rows9
  have hget : alistGet (twoLoopActivity geoTest (fun _ => []) rows9) "9.9.9.9"
      = some dossier9 := rfl
  exact ⟨h.1, (h.2.2.2 "9.9.9.9" dossier9 hget).1,
    (h.2.2.2 "9.9.9.9" dossier9 hget).2.1⟩

end Gophish
